import Mathlib

/-!
# LDAC native encoder: `src/native/ldac/src/ldacBT.c`

A shallow embedding of the encoder session of `ldacBT.c` / `ldacBT.h`.

* A handle `HANDLE_LDAC_BT` is a pointer that may be `NULL`: `Option ldacbt_handle`.
* C `int` values are `Int`; where the C code can overflow (`ldacBT_get_bitrate`,
  `frame_count++`) the result is reduced with `wrap32`.
* `unsigned char` stores reduce modulo 256 (`to_uchar`).
* The samples kept in `prev_samples` are `float`s of the form `s / 32768.0f` with `s` a
  16-bit integer; these are exactly representable, so they are modelled as `Rat`.
* The transcendental floating-point part (`process_mdct` with the global `kWindow`, and the
  scaled conversion `x * 100` to `unsigned char`) is a parameter, `FloatOps`, of
  `ldacBT_encode`: what is proved about the frame holds for every such pair of functions.
* For the range of the values that are converted, `kWindow` and `process_mdct` are also
  embedded in exact real arithmetic, without the rounding of the floating-point operations.
* Memory reached through a pointer (`p_pcm`, `p_stream`) is a function from the index to the
  value stored there.
* `LdacEncoder::Encode` of `ldac_wrapper.cc` is embedded on top of `ldacBT_encode`; its
  Buffer argument is a list of bytes.
-/

namespace LdacBT

/-! ## `ldacBT.h` -/

def LDACBT_ERR_NONE : Int := 0
def LDACBT_ERR_NON_FATAL : Int := 1
def LDACBT_ERR_FATAL : Int := 2
def LDACBT_ERR_ILL_PARAM : Int := 3
def LDACBT_ERR_ILL_VERSION : Int := 4

def LDACBT_SMPL_FMT_S16 : Int := 1
def LDACBT_SMPL_FMT_S24 : Int := 2
def LDACBT_SMPL_FMT_S32 : Int := 3
def LDACBT_SMPL_FMT_F32 : Int := 4

def LDACBT_CHANNEL_MODE_STEREO : Int := 0
def LDACBT_CHANNEL_MODE_DUAL_CHANNEL : Int := 1
def LDACBT_CHANNEL_MODE_MONO : Int := 2

def LDACBT_EQMID_HQ : Int := 0
def LDACBT_EQMID_SQ : Int := 1
def LDACBT_EQMID_MQ : Int := 2

/-! ## Machine arithmetic -/

/-- Reduction of a mathematical integer to the 32-bit two's complement `int` with the same
low 32 bits. -/
def wrap32 (x : Int) : Int := (x + 2147483648) % 4294967296 - 2147483648

/-- Conversion of an `int` to `unsigned char`: the value modulo 256. -/
def to_uchar (x : Int) : Nat := (x % 256).toNat

/-! ## `ldacBT.c` -/

/-- The table `ga_smp_freq` (line 16). -/
def ga_smp_freq : List Int := [44100, 48000, 88200, 96000]

/-- The floating-point computations of the encoder that the embedding does not evaluate.
`process_mdct win` is the array `out` that `process_mdct(in, out)` fills from the 256-sample
window `in` (it reads the global `kWindow`); `quantize c` is `(unsigned char)(c * 100)`. -/
structure FloatOps where
  process_mdct : (Nat → Rat) → Nat → Rat
  quantize : Rat → Nat

/-- The record `struct _ldacbt_handle` (lines 26-37). -/
structure ldacbt_handle where
  mtu : Int
  eqmid : Int
  channel_mode : Int
  fmt : Int
  sampling_freq : Int
  error_code : Int
  prev_samples : Fin 2 → Fin 128 → Rat
  frame_count : Int

/-- The pointer type `HANDLE_LDAC_BT`; `none` is `NULL`. -/
abbrev HANDLE_LDAC_BT : Type := Option ldacbt_handle

/-- The block `calloc(1, sizeof(struct _ldacbt_handle))` gives: every field zero. -/
def calloc_handle : ldacbt_handle :=
  { mtu := 0, eqmid := 0, channel_mode := 0, fmt := 0, sampling_freq := 0, error_code := 0,
    prev_samples := fun _ _ => 0, frame_count := 0 }

/-- `ldacBT_get_handle` (lines 39-43); `calloc_ok` says whether the allocation succeeds. -/
def ldacBT_get_handle (calloc_ok : Bool) : HANDLE_LDAC_BT :=
  if calloc_ok then some calloc_handle else none

/-- `ldacBT_init_handle_encode` (lines 49-58): the return value and the handle afterwards. -/
def ldacBT_init_handle_encode (hLdacBt : HANDLE_LDAC_BT)
    (mtu eqmid channel_mode fmt sampling_freq : Int) : Int × HANDLE_LDAC_BT :=
  match hLdacBt with
  | none => (LDACBT_ERR_FATAL, none)
  | some h =>
    (0, some { h with
      mtu := mtu
      eqmid := eqmid
      channel_mode := channel_mode
      fmt := fmt
      sampling_freq := sampling_freq
      frame_count := 0 })

/-- The value of `nbytes` that `ldacBT_encode` selects (lines 78-81). -/
def encode_nbytes (eqmid : Int) : Int :=
  if eqmid = LDACBT_EQMID_HQ then 330
  else if eqmid = LDACBT_EQMID_SQ then 220
  else 110

/-- The value of `sf_idx` that `ldacBT_encode` computes (lines 93-96). -/
def encode_sf_idx (sampling_freq : Int) : Int :=
  if sampling_freq = 48000 then 1
  else if sampling_freq = 88200 then 2
  else if sampling_freq = 96000 then 3
  else 0

/-- The header byte `(sf_idx << 5) | (channel_mode & 0x7)` as stored in `p_stream[1]`
(line 98). -/
def encode_header_byte (sampling_freq channel_mode : Int) : Nat :=
  to_uchar (Int.lor (encode_sf_idx sampling_freq <<< (5 : Int)) (Int.land channel_mode 7))

/-- The local arrays and the overlap buffer while the loop of lines 107-117 runs. -/
structure FillState where
  left_ch : Nat → Rat
  right_ch : Nat → Rat
  prev_samples : Fin 2 → Fin 128 → Rat

/-- One iteration of the loop of lines 107-117, for the index `i`. -/
def fill_step (pcm_in : Nat → Int) (s : FillState) (i : Fin 128) : FillState :=
  let left_ch := Function.update s.left_ch i.val (s.prev_samples 0 i)
  let left_ch := Function.update left_ch (i.val + 128) ((pcm_in (2 * i.val) : Rat) / 32768)
  let right_ch := Function.update s.right_ch i.val (s.prev_samples 1 i)
  let right_ch :=
    Function.update right_ch (i.val + 128) ((pcm_in (2 * i.val + 1) : Rat) / 32768)
  let prev := Function.update s.prev_samples 0
    (Function.update (s.prev_samples 0) i (left_ch (i.val + 128)))
  let prev := Function.update prev 1 (Function.update (prev 1) i (right_ch (i.val + 128)))
  { left_ch := left_ch, right_ch := right_ch, prev_samples := prev }

/-- The loop of lines 107-117, `i = 0 .. 127`. The local arrays start as zero; every one of
their 256 entries is written by the loop. -/
def fill_buffers (pcm_in : Nat → Int) (prev_samples : Fin 2 → Fin 128 → Rat) : FillState :=
  (List.finRange 128).foldl (fill_step pcm_in)
    { left_ch := fun _ => 0, right_ch := fun _ => 0, prev_samples := prev_samples }

/-- The loop of lines 128-130, `i = 4 .. nbytes - 1`. -/
def fill_payload (F : FloatOps) (mdct_l : Nat → Rat) (nbytes : Int) (p_stream : Nat → Nat) :
    Nat → Nat :=
  (List.range' 4 (nbytes.toNat - 4)).foldl
    (fun p i => Function.update p i (F.quantize (mdct_l (i % 128)) % 256)) p_stream

/-- What a call of `ldacBT_encode` leaves behind: the return value, the handle, and the
objects behind the pointers `pcm_used`, `p_stream`, `stream_sz` and `frame_num`. -/
structure EncodeResult where
  ret : Int
  hLdacBt : HANDLE_LDAC_BT
  pcm_used : Int
  p_stream : Nat → Nat
  stream_sz : Int
  frame_num : Int

/-- `ldacBT_encode` (lines 74-137). `p_pcm i` is the `short` at `((short*)p_pcm)[i]`;
`pcm_used`, `stream_sz` and `frame_num` are the values behind those pointers at the call,
`p_stream` the bytes of the output buffer at the call. -/
def ldacBT_encode (F : FloatOps) (hLdacBt : HANDLE_LDAC_BT) (p_pcm : Nat → Int)
    (pcm_used : Int) (p_stream : Nat → Nat) (stream_sz : Int) (frame_num : Int) :
    EncodeResult :=
  match hLdacBt with
  | none =>
    { ret := LDACBT_ERR_FATAL, hLdacBt := none, pcm_used := pcm_used, p_stream := p_stream,
      stream_sz := stream_sz, frame_num := frame_num }
  | some h =>
    let nbytes := encode_nbytes h.eqmid
    if stream_sz < nbytes then
      { ret := LDACBT_ERR_ILL_PARAM, hLdacBt := some h, pcm_used := pcm_used,
        p_stream := p_stream, stream_sz := stream_sz, frame_num := frame_num }
    else
      let p_stream := Function.update p_stream 0 0xAA
      let p_stream :=
        Function.update p_stream 1 (encode_header_byte h.sampling_freq h.channel_mode)
      let p_stream := Function.update p_stream 2 (to_uchar nbytes)
      let s := fill_buffers p_pcm h.prev_samples
      let mdct_l := F.process_mdct s.left_ch
      let _mdct_r := F.process_mdct s.right_ch
      let p_stream := fill_payload F mdct_l nbytes p_stream
      { ret := 0
        hLdacBt := some { h with
          prev_samples := s.prev_samples
          frame_count := wrap32 (h.frame_count + 1) }
        pcm_used := 512
        p_stream := p_stream
        stream_sz := nbytes
        frame_num := 1 }

/-- `ldacBT_get_error_code` (lines 139-141). -/
def ldacBT_get_error_code (hLdacBt : HANDLE_LDAC_BT) : Int :=
  match hLdacBt with
  | some h => h.error_code
  | none => 0

/-- `ldacBT_get_sampling_freq` (lines 143-145). -/
def ldacBT_get_sampling_freq (hLdacBt : HANDLE_LDAC_BT) : Int :=
  match hLdacBt with
  | some h => h.sampling_freq
  | none => 0

/-- The value of `framesize` that `ldacBT_get_bitrate` selects (lines 150-153). -/
def bitrate_framesize (eqmid : Int) : Int :=
  if eqmid = LDACBT_EQMID_HQ then 330
  else if eqmid = LDACBT_EQMID_SQ then 220
  else 110

/-- `ldacBT_get_bitrate` (lines 147-156): `(framesize * 8 * sampling_freq) / 128` in 32-bit
`int` arithmetic, the division truncating toward zero. -/
def ldacBT_get_bitrate (hLdacBt : HANDLE_LDAC_BT) : Int :=
  match hLdacBt with
  | none => 0
  | some h =>
    wrap32 (Int.tdiv (wrap32 (wrap32 (bitrate_framesize h.eqmid * 8) * h.sampling_freq)) 128)

/-! ## Operation sequences -/

/-- One call on a session: the two operations that receive the handle for writing, and the
three queries. The arguments are those of the C functions that are not the handle. -/
inductive Op where
  | init_handle_encode (mtu eqmid channel_mode fmt sampling_freq : Int)
  | encode (p_pcm : Nat → Int) (pcm_used : Int) (p_stream : Nat → Nat) (stream_sz : Int)
      (frame_num : Int)
  | get_error_code
  | get_sampling_freq
  | get_bitrate

/-- The handle after one call. The queries only read the handle. -/
def Op.run (F : FloatOps) (hLdacBt : HANDLE_LDAC_BT) : Op → HANDLE_LDAC_BT
  | .init_handle_encode mtu eqmid channel_mode fmt sampling_freq =>
    (ldacBT_init_handle_encode hLdacBt mtu eqmid channel_mode fmt sampling_freq).2
  | .encode p_pcm pcm_used p_stream stream_sz frame_num =>
    (ldacBT_encode F hLdacBt p_pcm pcm_used p_stream stream_sz frame_num).hLdacBt
  | .get_error_code => hLdacBt
  | .get_sampling_freq => hLdacBt
  | .get_bitrate => hLdacBt

/-- The handle after a sequence of calls, first call first. -/
def run_ops (F : FloatOps) (hLdacBt : HANDLE_LDAC_BT) (ops : List Op) : HANDLE_LDAC_BT :=
  ops.foldl (Op.run F) hLdacBt

/-! ## The specification's quality table (spec §4.3) -/

/-- Quality modes of the specification: High, Standard, Mobile. -/
inductive QualityMode where
  | High
  | Standard
  | Mobile
  deriving DecidableEq, Repr

/-- The enumerant of a quality mode: High=0, Standard=1, Mobile=2. -/
def QualityMode.toInt : QualityMode → Int
  | .High => 0
  | .Standard => 1
  | .Mobile => 2

/-- The specification's payload byte count: High→330, Standard→220, Mobile→110. -/
def payloadBytes : QualityMode → Int
  | .High => 330
  | .Standard => 220
  | .Mobile => 110

/-! ## Concrete inputs used in examples -/

/-- A stand-in for the floating-point part, for examples whose result does not depend on
the transform: all coefficients and all payload bytes are zero. -/
def zero_float_ops : FloatOps :=
  { process_mdct := fun _ _ => 0, quantize := fun _ => 0 }

/-- A PCM block of silence. -/
def silent_pcm : Nat → Int := fun _ => 0

/-- A PCM block whose first left sample is 16384 and whose other samples are zero. -/
def impulse_pcm : Nat → Int := fun i => if i = 0 then 16384 else 0

/-- An output buffer holding zeros. -/
def zero_stream : Nat → Nat := fun _ => 0

/-- A PCM block in which every sample is 32767. -/
def loud_pcm : Nat → Int := fun _ => 32767

/-- An output buffer holding the byte 7 everywhere. -/
def sevens_stream : Nat → Nat := fun _ => 7

/-- The session `new LdacEncoder(679, HQ, STEREO, S16, 44100)` sets up. -/
def hq_44100 : ldacbt_handle :=
  { calloc_handle with mtu := 679, fmt := 1, sampling_freq := 44100 }

/-- A PCM block whose left samples are zero and whose right samples are 1000. -/
def right_only_pcm : Nat → Int := fun i => if i % 2 = 1 then 1000 else 0

/-- The session `hq_44100` with a right overlap buffer holding 1/2 everywhere. -/
def hq_44100_right_tail : ldacbt_handle :=
  { hq_44100 with prev_samples := fun c _ => if c = 1 then 1 / 2 else 0 }

/-! ## `ldac_wrapper.cc` -/

/-- The `short` that `((short*)p)[i]` reads from the bytes at `p` on a little-endian target:
the bytes `2 * i` and `2 * i + 1` as one 16-bit two's complement number. -/
def pcm_short (bytes : Nat → Nat) (i : Nat) : Int :=
  if bytes (2 * i) % 256 + 256 * (bytes (2 * i + 1) % 256) < 32768 then
    ((bytes (2 * i) % 256 + 256 * (bytes (2 * i + 1) % 256) : Nat) : Int)
  else ((bytes (2 * i) % 256 + 256 * (bytes (2 * i + 1) % 256) : Nat) : Int) - 65536

/-- The bytes reached from `inputBuffer.Data()`: the bytes of the buffer, then whatever the
memory holds after its end (`beyond`). -/
def buffer_memory (inputBuffer : List Nat) (beyond : Nat → Nat) : Nat → Nat :=
  fun i => inputBuffer.getD i (beyond (i - inputBuffer.length))

/-- `LdacEncoder::Encode` (lines 64-89) called with a Buffer: the bytes of the Buffer it
returns and the handle afterwards. `stream` is what the local array `stream[1024]` holds when
it is declared. The length `inputLen` of the argument is read (line 73) and not used. -/
def LdacEncoder.Encode (F : FloatOps) (handle : HANDLE_LDAC_BT) (inputBuffer : List Nat)
    (beyond : Nat → Nat) (stream : Nat → Nat) : List Nat × HANDLE_LDAC_BT :=
  let _inputLen := inputBuffer.length
  let inputData := buffer_memory inputBuffer beyond
  let r := ldacBT_encode F handle (pcm_short inputData) 0 stream 1024 0
  if r.ret ≠ 0 then ([], r.hLdacBt)
  else ((List.range r.stream_sz.toNat).map r.p_stream, r.hLdacBt)

/-! ## Write set and block counter -/

/-- The indices of `p_stream` that `ldacBT_encode` assigns once the capacity check has
passed: 0, 1 and 2 (lines 90-99), then `i = 4 .. nbytes - 1` (lines 128-130). -/
def encode_write_indices (eqmid : Int) : List Nat :=
  [0, 1, 2] ++ List.range' 4 ((encode_nbytes eqmid).toNat - 4)

/-- The field `frame_count` behind a handle (0 for `NULL`). -/
def frame_count_of (hLdacBt : HANDLE_LDAC_BT) : Int :=
  match hLdacBt with
  | some h => h.frame_count
  | none => 0

/-- Whether a call is `ldacBT_init_handle_encode`. -/
def Op.is_init : Op → Bool
  | .init_handle_encode _ _ _ _ _ => true
  | _ => false

/-- Whether a call, made on the handle `hLdacBt`, is an `ldacBT_encode` that returns 0. -/
def Op.is_successful_encode (F : FloatOps) (hLdacBt : HANDLE_LDAC_BT) : Op → Bool
  | .encode p_pcm pcm_used p_stream stream_sz frame_num =>
    decide ((ldacBT_encode F hLdacBt p_pcm pcm_used p_stream stream_sz frame_num).ret = 0)
  | _ => false

/-- The number of `ldacBT_encode` calls that return 0 when the sequence runs from `hLdacBt`. -/
def successful_encodes (F : FloatOps) : HANDLE_LDAC_BT → List Op → Nat
  | _, [] => 0
  | hLdacBt, op :: rest =>
    (if op.is_successful_encode F hLdacBt then 1 else 0)
      + successful_encodes F (op.run F hLdacBt) rest

/-! ## The transform in exact real arithmetic -/

/-- The table `kWindow` as `init_window` fills it (lines 19-24), `sin((M_PI / 256) * (i + 0.5))`,
in exact real arithmetic: the rounding to `float` is not modelled. -/
noncomputable def kWindow (i : Nat) : ℝ :=
  Real.sin ((Real.pi / 256) * ((i : ℝ) + 0.5))

/-- `process_mdct` (lines 61-72) in exact real arithmetic: `process_mdct inp k` is `out[k]`
for the window `inp`, the sum over `n = 0 .. 255` of
`in[n] * kWindow[n] * cos((M_PI / 128) * (n + 0.5 + 128/2) * (k + 0.5))`, where `128/2` is an
integer division. The rounding of the floating-point operations is not modelled. -/
noncomputable def process_mdct (inp : Nat → ℝ) (k : Nat) : ℝ :=
  (List.range 256).foldl
    (fun sum n =>
      sum + (inp n * kWindow n)
        * Real.cos ((Real.pi / 128) * ((n : ℝ) + 0.5 + ((128 / 2 : Nat) : ℝ)) * ((k : ℝ) + 0.5)))
    0

/-- The value `mdct_l[i % 128] * 100` that line 129 converts to `unsigned char` for the frame
index `i`, in exact real arithmetic, for a call of `ldacBT_encode` on the session `h` with
the block `p_pcm`. -/
noncomputable def encode_scaled_coefficient (h : ldacbt_handle) (p_pcm : Nat → Int)
    (i : Nat) : ℝ :=
  process_mdct (fun n => (((fill_buffers p_pcm h.prev_samples).left_ch n : Rat) : ℝ)) (i % 128)
    * 100

/-! ## Auxiliary lemmas -/

theorem foldl_update_not_mem (g : Nat → Nat) (l : List Nat) (p : Nat → Nat) (j : Nat)
    (hj : j ∉ l) : (l.foldl (fun p i => Function.update p i (g i)) p) j = p j := by
  induction l generalizing p with
  | nil => rfl
  | cons a t ih =>
    have hja : j ≠ a := fun e => hj (by simp [e])
    have hjt : j ∉ t := fun e => hj (by simp [e])
    simp only [List.foldl_cons]
    rw [ih _ hjt, Function.update_noteq hja]

theorem fill_payload_header (F : FloatOps) (mdct_l : Nat → Rat) (nbytes : Int)
    (p_stream : Nat → Nat) (j : Nat) (hj : j < 4) :
    fill_payload F mdct_l nbytes p_stream j = p_stream j := by
  unfold fill_payload
  apply foldl_update_not_mem (fun i => F.quantize (mdct_l (i % 128)) % 256)
  intro hmem
  rw [List.mem_range'] at hmem
  obtain ⟨k, _, hk⟩ := hmem
  omega

theorem fill_step_prev_samples (pcm_in : Nat → Int) (s : FillState) (i j : Fin 128) :
    (fill_step pcm_in s i).prev_samples 0 j
        = (if j = i then (pcm_in (2 * i.val) : Rat) / 32768 else s.prev_samples 0 j) ∧
    (fill_step pcm_in s i).prev_samples 1 j
        = (if j = i then (pcm_in (2 * i.val + 1) : Rat) / 32768 else s.prev_samples 1 j) := by
  by_cases hji : j = i
  · subst hji
    simp [fill_step]
  · simp [fill_step, Function.update_noteq hji, hji]

theorem foldl_fill_step_prev_samples (pcm_in : Nat → Int) (l : List (Fin 128))
    (s : FillState) (j : Fin 128) :
    (l.foldl (fill_step pcm_in) s).prev_samples 0 j
        = (if j ∈ l then (pcm_in (2 * j.val) : Rat) / 32768 else s.prev_samples 0 j) ∧
    (l.foldl (fill_step pcm_in) s).prev_samples 1 j
        = (if j ∈ l then (pcm_in (2 * j.val + 1) : Rat) / 32768 else s.prev_samples 1 j) := by
  induction l generalizing s with
  | nil => simp
  | cons a t ih =>
    simp only [List.foldl_cons]
    obtain ⟨h0, h1⟩ := ih (fill_step pcm_in s a)
    obtain ⟨g0, g1⟩ := fill_step_prev_samples pcm_in s a j
    rw [h0, h1, g0, g1]
    by_cases hjt : j ∈ t
    · simp [hjt]
    · by_cases hja : j = a
      · subst hja
        simp [hjt]
      · simp [hjt, hja]

/-- After the loop of lines 107-117 the overlap buffer holds the block, de-interleaved. -/
theorem fill_buffers_prev_samples (pcm_in : Nat → Int) (prev : Fin 2 → Fin 128 → Rat)
    (j : Fin 128) :
    (fill_buffers pcm_in prev).prev_samples 0 j = (pcm_in (2 * j.val) : Rat) / 32768 ∧
    (fill_buffers pcm_in prev).prev_samples 1 j = (pcm_in (2 * j.val + 1) : Rat) / 32768 := by
  unfold fill_buffers
  obtain ⟨h0, h1⟩ := foldl_fill_step_prev_samples pcm_in (List.finRange 128)
    { left_ch := fun _ => 0, right_ch := fun _ => 0, prev_samples := prev } j
  rw [h0, h1]
  simp [List.mem_finRange]

/-- The failing branch of `ldacBT_encode` (line 83). -/
theorem ldacBT_encode_small (F : FloatOps) (h : ldacbt_handle) (p_pcm : Nat → Int)
    (pcm_used : Int) (p_stream : Nat → Nat) (stream_sz frame_num : Int)
    (hsz : stream_sz < encode_nbytes h.eqmid) :
    ldacBT_encode F (some h) p_pcm pcm_used p_stream stream_sz frame_num =
      { ret := LDACBT_ERR_ILL_PARAM, hLdacBt := some h, pcm_used := pcm_used,
        p_stream := p_stream, stream_sz := stream_sz, frame_num := frame_num } := by
  simp [ldacBT_encode, hsz]

/-- The succeeding branch of `ldacBT_encode` (lines 85-136). -/
theorem ldacBT_encode_enough (F : FloatOps) (h : ldacbt_handle) (p_pcm : Nat → Int)
    (pcm_used : Int) (p_stream : Nat → Nat) (stream_sz frame_num : Int)
    (hsz : encode_nbytes h.eqmid ≤ stream_sz) :
    ldacBT_encode F (some h) p_pcm pcm_used p_stream stream_sz frame_num =
      { ret := 0
        hLdacBt := some { h with
          prev_samples := (fill_buffers p_pcm h.prev_samples).prev_samples
          frame_count := wrap32 (h.frame_count + 1) }
        pcm_used := 512
        p_stream :=
          fill_payload F (F.process_mdct (fill_buffers p_pcm h.prev_samples).left_ch)
            (encode_nbytes h.eqmid)
            (Function.update
              (Function.update (Function.update p_stream 0 0xAA) 1
                (encode_header_byte h.sampling_freq h.channel_mode))
              2 (to_uchar (encode_nbytes h.eqmid)))
        stream_sz := encode_nbytes h.eqmid
        frame_num := 1 } := by
  simp [ldacBT_encode, not_lt.mpr hsz]

/-- The three header bytes of a successful `ldacBT_encode`. -/
theorem ldacBT_encode_header (F : FloatOps) (h : ldacbt_handle) (p_pcm : Nat → Int)
    (pcm_used : Int) (p_stream : Nat → Nat) (stream_sz frame_num : Int)
    (hsz : encode_nbytes h.eqmid ≤ stream_sz) :
    (ldacBT_encode F (some h) p_pcm pcm_used p_stream stream_sz frame_num).p_stream 0 = 0xAA ∧
    (ldacBT_encode F (some h) p_pcm pcm_used p_stream stream_sz frame_num).p_stream 1 =
      encode_header_byte h.sampling_freq h.channel_mode ∧
    (ldacBT_encode F (some h) p_pcm pcm_used p_stream stream_sz frame_num).p_stream 2 =
      to_uchar (encode_nbytes h.eqmid) := by
  rw [ldacBT_encode_enough F h p_pcm pcm_used p_stream stream_sz frame_num hsz]
  refine ⟨?_, ?_, ?_⟩
  · dsimp only
    rw [fill_payload_header _ _ _ _ 0 (by decide)]
    simp [Function.update]
  · dsimp only
    rw [fill_payload_header _ _ _ _ 1 (by decide)]
    simp [Function.update]
  · dsimp only
    rw [fill_payload_header _ _ _ _ 2 (by decide)]
    simp [Function.update]

theorem fill_step_windows (pcm_in : Nat → Int) (s : FillState) (i j : Fin 128) :
    ((fill_step pcm_in s i).left_ch j.val
        = (if j = i then s.prev_samples 0 j else s.left_ch j.val) ∧
      (fill_step pcm_in s i).left_ch (j.val + 128)
        = (if j = i then (pcm_in (2 * j.val) : Rat) / 32768 else s.left_ch (j.val + 128))) ∧
    ((fill_step pcm_in s i).right_ch j.val
        = (if j = i then s.prev_samples 1 j else s.right_ch j.val) ∧
      (fill_step pcm_in s i).right_ch (j.val + 128)
        = (if j = i then (pcm_in (2 * j.val + 1) : Rat) / 32768
            else s.right_ch (j.val + 128))) := by
  have hi := i.isLt
  have hj := j.isLt
  by_cases hji : j = i
  · subst hji
    simp [fill_step, Function.update]
  · have hv : j.val ≠ i.val := fun e => hji (Fin.ext e)
    have h1 : j.val ≠ i.val + 128 := by omega
    have h2 : j.val + 128 ≠ i.val := by omega
    simp [fill_step, Function.update, hji, hv, h1, h2]

theorem foldl_fill_step_windows (pcm_in : Nat → Int) (l : List (Fin 128)) (hl : l.Nodup)
    (s : FillState) (j : Fin 128) :
    ((l.foldl (fill_step pcm_in) s).left_ch j.val
        = (if j ∈ l then s.prev_samples 0 j else s.left_ch j.val) ∧
      (l.foldl (fill_step pcm_in) s).left_ch (j.val + 128)
        = (if j ∈ l then (pcm_in (2 * j.val) : Rat) / 32768 else s.left_ch (j.val + 128))) ∧
    ((l.foldl (fill_step pcm_in) s).right_ch j.val
        = (if j ∈ l then s.prev_samples 1 j else s.right_ch j.val) ∧
      (l.foldl (fill_step pcm_in) s).right_ch (j.val + 128)
        = (if j ∈ l then (pcm_in (2 * j.val + 1) : Rat) / 32768
            else s.right_ch (j.val + 128))) := by
  induction l generalizing s with
  | nil => simp
  | cons a t ih =>
    obtain ⟨hat, ht⟩ := List.nodup_cons.mp hl
    simp only [List.foldl_cons]
    obtain ⟨⟨l0, l1⟩, r0, r1⟩ := ih ht (fill_step pcm_in s a)
    obtain ⟨⟨a0, a1⟩, b0, b1⟩ := fill_step_windows pcm_in s a j
    obtain ⟨p0, p1⟩ := fill_step_prev_samples pcm_in s a j
    rw [l0, l1, r0, r1, a0, a1, b0, b1, p0, p1]
    by_cases hjt : j ∈ t
    · have hja : j ≠ a := fun e => hat (e ▸ hjt)
      simp [hjt, hja]
    · by_cases hja : j = a
      · subst hja
        simp [hjt]
      · simp [hjt, hja]

/-- After the loop of lines 107-117 each window is the old overlap followed by the block's
samples of that channel. -/
theorem fill_buffers_windows (pcm_in : Nat → Int) (prev : Fin 2 → Fin 128 → Rat)
    (j : Fin 128) :
    ((fill_buffers pcm_in prev).left_ch j.val = prev 0 j ∧
      (fill_buffers pcm_in prev).left_ch (j.val + 128) = (pcm_in (2 * j.val) : Rat) / 32768) ∧
    ((fill_buffers pcm_in prev).right_ch j.val = prev 1 j ∧
      (fill_buffers pcm_in prev).right_ch (j.val + 128)
        = (pcm_in (2 * j.val + 1) : Rat) / 32768) := by
  unfold fill_buffers
  obtain ⟨⟨l0, l1⟩, r0, r1⟩ := foldl_fill_step_windows pcm_in (List.finRange 128)
    (List.nodup_finRange 128)
    { left_ch := fun _ => 0, right_ch := fun _ => 0, prev_samples := prev } j
  rw [l0, l1, r0, r1]
  simp [List.mem_finRange]

theorem foldl_update_mem (g : Nat → Nat) (l : List Nat) (p : Nat → Nat) (j : Nat)
    (hj : j ∈ l) : (l.foldl (fun p i => Function.update p i (g i)) p) j = g j := by
  induction l generalizing p with
  | nil => simp at hj
  | cons a t ih =>
    simp only [List.foldl_cons]
    by_cases hjt : j ∈ t
    · exact ih _ hjt
    · have hja : j = a := by
        rcases List.mem_cons.mp hj with e | e
        · exact e
        · exact absurd e hjt
      subst hja
      rw [foldl_update_not_mem g t _ j hjt, Function.update_same]

/-- The bytes the loop of lines 128-130 writes, and the bytes it leaves. -/
theorem fill_payload_body (F : FloatOps) (mdct_l : Nat → Rat) (nbytes : Int)
    (p_stream : Nat → Nat) (j : Nat) :
    fill_payload F mdct_l nbytes p_stream j
      = (if 4 ≤ j ∧ (j : Int) < nbytes then F.quantize (mdct_l (j % 128)) % 256
          else p_stream j) := by
  unfold fill_payload
  by_cases hj : 4 ≤ j ∧ (j : Int) < nbytes
  · rw [if_pos hj]
    apply foldl_update_mem (fun i => F.quantize (mdct_l (i % 128)) % 256)
    rw [List.mem_range']
    refine ⟨j - 4, ?_, ?_⟩ <;> omega
  · rw [if_neg hj]
    apply foldl_update_not_mem (fun i => F.quantize (mdct_l (i % 128)) % 256)
    intro hmem
    rw [List.mem_range'] at hmem
    obtain ⟨k, hk, e⟩ := hmem
    apply hj
    omega

theorem fill_step_beyond (pcm_in : Nat → Int) (s : FillState) (i : Fin 128) (n : Nat)
    (hn : 256 ≤ n) :
    (fill_step pcm_in s i).left_ch n = s.left_ch n ∧
    (fill_step pcm_in s i).right_ch n = s.right_ch n := by
  have hi := i.isLt
  have h1 : n ≠ i.val := by omega
  have h2 : n ≠ i.val + 128 := by omega
  simp [fill_step, Function.update, h1, h2]

theorem foldl_fill_step_beyond (pcm_in : Nat → Int) (l : List (Fin 128)) (s : FillState)
    (n : Nat) (hn : 256 ≤ n) :
    (l.foldl (fill_step pcm_in) s).left_ch n = s.left_ch n ∧
    (l.foldl (fill_step pcm_in) s).right_ch n = s.right_ch n := by
  induction l generalizing s with
  | nil => exact ⟨rfl, rfl⟩
  | cons a t ih =>
    simp only [List.foldl_cons]
    obtain ⟨h0, h1⟩ := ih (fill_step pcm_in s a)
    obtain ⟨g0, g1⟩ := fill_step_beyond pcm_in s a n hn
    exact ⟨h0.trans g0, h1.trans g1⟩

/-- The left window is a function of the left overlap and of the left samples only. -/
theorem fill_buffers_left_ch_congr (pcm_in pcm_in' : Nat → Int)
    (prev prev' : Fin 2 → Fin 128 → Rat) (hprev : prev 0 = prev' 0)
    (hpcm : ∀ i : Nat, i < 128 → pcm_in (2 * i) = pcm_in' (2 * i)) :
    (fill_buffers pcm_in prev).left_ch = (fill_buffers pcm_in' prev').left_ch := by
  funext n
  by_cases h1 : n < 128
  · have e := (fill_buffers_windows pcm_in prev ⟨n, h1⟩).1.1
    have e' := (fill_buffers_windows pcm_in' prev' ⟨n, h1⟩).1.1
    simp only at e e'
    rw [e, e', hprev]
  · by_cases h2 : n < 256
    · have hlt : n - 128 < 128 := by omega
      have hn : n - 128 + 128 = n := by omega
      have e := (fill_buffers_windows pcm_in prev ⟨n - 128, hlt⟩).1.2
      have e' := (fill_buffers_windows pcm_in' prev' ⟨n - 128, hlt⟩).1.2
      simp only [hn] at e e'
      rw [e, e', hpcm (n - 128) hlt]
    · have e := (foldl_fill_step_beyond pcm_in (List.finRange 128)
        { left_ch := fun _ => 0, right_ch := fun _ => 0, prev_samples := prev } n
        (not_lt.mp h2)).1
      have e' := (foldl_fill_step_beyond pcm_in' (List.finRange 128)
        { left_ch := fun _ => 0, right_ch := fun _ => 0, prev_samples := prev' } n
        (not_lt.mp h2)).1
      unfold fill_buffers
      rw [e, e']

/-- The overlap buffer after the loop is a function of the block's first 256 samples. -/
theorem fill_buffers_prev_samples_congr (pcm_in pcm_in' : Nat → Int)
    (prev prev' : Fin 2 → Fin 128 → Rat)
    (hpcm : ∀ i : Nat, i < 256 → pcm_in i = pcm_in' i) :
    (fill_buffers pcm_in prev).prev_samples = (fill_buffers pcm_in' prev').prev_samples := by
  funext c j
  have hj := j.isLt
  obtain ⟨e0, e1⟩ := fill_buffers_prev_samples pcm_in prev j
  obtain ⟨f0, f1⟩ := fill_buffers_prev_samples pcm_in' prev' j
  have hc : c = 0 ∨ c = 1 := by
    rcases c with ⟨v, hv⟩
    have : v = 0 ∨ v = 1 := by omega
    rcases this with e | e
    · exact Or.inl (Fin.ext e)
    · exact Or.inr (Fin.ext e)
  rcases hc with e | e
  · subst e
    rw [e0, f0, hpcm (2 * j.val) (by omega)]
  · subst e
    rw [e1, f1, hpcm (2 * j.val + 1) (by omega)]

theorem encode_nbytes_bounds (eqmid : Int) :
    110 ≤ encode_nbytes eqmid ∧ encode_nbytes eqmid ≤ 330 := by
  unfold encode_nbytes
  split_ifs <;> decide

/-- `ldacBT_encode` reads the first 256 samples at `p_pcm` and no others. -/
theorem ldacBT_encode_congr_pcm (F : FloatOps) (h : ldacbt_handle) (p_pcm p_pcm' : Nat → Int)
    (pcm_used : Int) (p_stream : Nat → Nat) (stream_sz frame_num : Int)
    (hpcm : ∀ i : Nat, i < 256 → p_pcm i = p_pcm' i) :
    ldacBT_encode F (some h) p_pcm pcm_used p_stream stream_sz frame_num
      = ldacBT_encode F (some h) p_pcm' pcm_used p_stream stream_sz frame_num := by
  by_cases hsz : stream_sz < encode_nbytes h.eqmid
  · rw [ldacBT_encode_small F h p_pcm pcm_used p_stream stream_sz frame_num hsz,
      ldacBT_encode_small F h p_pcm' pcm_used p_stream stream_sz frame_num hsz]
  · rw [ldacBT_encode_enough F h p_pcm pcm_used p_stream stream_sz frame_num (not_lt.mp hsz),
      ldacBT_encode_enough F h p_pcm' pcm_used p_stream stream_sz frame_num (not_lt.mp hsz),
      fill_buffers_left_ch_congr p_pcm p_pcm' h.prev_samples h.prev_samples rfl
        (fun i hi => hpcm (2 * i) (by omega)),
      fill_buffers_prev_samples_congr p_pcm p_pcm' h.prev_samples h.prev_samples hpcm]

theorem buffer_memory_congr (inputBuffer inputBuffer' : List Nat) (beyond beyond' : Nat → Nat)
    (k : Nat) (hk : k < inputBuffer.length) (hk' : k < inputBuffer'.length)
    (hsame : inputBuffer[k]? = inputBuffer'[k]?) :
    buffer_memory inputBuffer beyond k = buffer_memory inputBuffer' beyond' k := by
  unfold buffer_memory
  rw [List.getD_eq_getElem _ _ hk, List.getD_eq_getElem _ _ hk']
  rw [List.getElem?_eq_getElem hk, List.getElem?_eq_getElem hk'] at hsame
  exact Option.some.inj hsame

/-- A successful `LdacEncoder::Encode` returns `stream_sz` bytes. -/
theorem Encode_length (F : FloatOps) (h : ldacbt_handle) (inputBuffer : List Nat)
    (beyond : Nat → Nat) (stream : Nat → Nat) :
    (LdacEncoder.Encode F (some h) inputBuffer beyond stream).1.length
      = (encode_nbytes h.eqmid).toNat := by
  have hsz : encode_nbytes h.eqmid ≤ 1024 := by
    have := (encode_nbytes_bounds h.eqmid).2
    omega
  dsimp only [LdacEncoder.Encode]
  rw [ldacBT_encode_enough _ _ _ _ _ _ _ hsz]
  simp only [ne_eq, not_true_eq_false, if_false, List.length_map, List.length_range]

theorem mem_encode_write_indices (eqmid : Int) (j : Nat) :
    j ∈ encode_write_indices eqmid ↔
      j = 0 ∨ j = 1 ∨ j = 2 ∨ (4 ≤ j ∧ (j : Int) < encode_nbytes eqmid) := by
  unfold encode_write_indices
  rw [List.mem_append, List.mem_range']
  constructor
  · rintro (hj | ⟨k, hk, e⟩)
    · simp only [List.mem_cons, List.mem_singleton, List.not_mem_nil, or_false] at hj
      rcases hj with e | e | e
      · exact Or.inl e
      · exact Or.inr (Or.inl e)
      · exact Or.inr (Or.inr (Or.inl e))
    · exact Or.inr (Or.inr (Or.inr ⟨by omega, by omega⟩))
  · rintro (e | e | e | ⟨h4, hlt⟩)
    · exact Or.inl (by simp [e])
    · exact Or.inl (by simp [e])
    · exact Or.inl (by simp [e])
    · exact Or.inr ⟨j - 4, by omega, by omega⟩

/-- Every byte of the output buffer after a successful `ldacBT_encode`. -/
theorem ldacBT_encode_p_stream (F : FloatOps) (h : ldacbt_handle) (p_pcm : Nat → Int)
    (pcm_used : Int) (p_stream : Nat → Nat) (stream_sz frame_num : Int)
    (hsz : encode_nbytes h.eqmid ≤ stream_sz) (j : Nat) :
    (ldacBT_encode F (some h) p_pcm pcm_used p_stream stream_sz frame_num).p_stream j
      = (if 4 ≤ j ∧ (j : Int) < encode_nbytes h.eqmid then
          F.quantize (F.process_mdct (fill_buffers p_pcm h.prev_samples).left_ch (j % 128))
            % 256
        else if j = 0 then 0xAA
        else if j = 1 then encode_header_byte h.sampling_freq h.channel_mode
        else if j = 2 then to_uchar (encode_nbytes h.eqmid)
        else p_stream j) := by
  rw [ldacBT_encode_enough F h p_pcm pcm_used p_stream stream_sz frame_num hsz]
  dsimp only
  rw [fill_payload_body]
  by_cases hj : 4 ≤ j ∧ (j : Int) < encode_nbytes h.eqmid
  · rw [if_pos hj, if_pos hj]
  · rw [if_neg hj, if_neg hj]
    by_cases h0 : j = 0
    · subst h0
      simp [Function.update]
    · by_cases h1 : j = 1
      · subst h1
        simp [Function.update]
      · by_cases h2 : j = 2
        · subst h2
          simp [Function.update]
        · simp [Function.update, h0, h1, h2]

/-- The frame and the return value of `ldacBT_encode` are functions of the quality mode, the
sampling frequency, the channel mode, the left overlap buffer and the left samples. -/
theorem ldacBT_encode_frame_congr (F : FloatOps) (h h' : ldacbt_handle)
    (p_pcm p_pcm' : Nat → Int) (pcm_used pcm_used' : Int) (p_stream : Nat → Nat)
    (stream_sz frame_num frame_num' : Int)
    (heq : h.eqmid = h'.eqmid) (hsf : h.sampling_freq = h'.sampling_freq)
    (hcm : h.channel_mode = h'.channel_mode) (hprev : h.prev_samples 0 = h'.prev_samples 0)
    (hpcm : ∀ i : Nat, i < 128 → p_pcm (2 * i) = p_pcm' (2 * i)) :
    (ldacBT_encode F (some h) p_pcm pcm_used p_stream stream_sz frame_num).ret
      = (ldacBT_encode F (some h') p_pcm' pcm_used' p_stream stream_sz frame_num').ret ∧
    (ldacBT_encode F (some h) p_pcm pcm_used p_stream stream_sz frame_num).p_stream
      = (ldacBT_encode F (some h') p_pcm' pcm_used' p_stream stream_sz frame_num').p_stream ∧
    (ldacBT_encode F (some h) p_pcm pcm_used p_stream stream_sz frame_num).stream_sz
      = (ldacBT_encode F (some h') p_pcm' pcm_used' p_stream stream_sz
          frame_num').stream_sz := by
  by_cases hsz : stream_sz < encode_nbytes h.eqmid
  · rw [ldacBT_encode_small F h p_pcm pcm_used p_stream stream_sz frame_num hsz,
      ldacBT_encode_small F h' p_pcm' pcm_used' p_stream stream_sz frame_num' (heq ▸ hsz)]
    exact ⟨rfl, rfl, rfl⟩
  · have hge : encode_nbytes h.eqmid ≤ stream_sz := not_lt.mp hsz
    rw [ldacBT_encode_enough F h p_pcm pcm_used p_stream stream_sz frame_num hge,
      ldacBT_encode_enough F h' p_pcm' pcm_used' p_stream stream_sz frame_num' (heq ▸ hge)]
    dsimp only
    rw [fill_buffers_left_ch_congr p_pcm p_pcm' h.prev_samples h'.prev_samples hprev hpcm,
      heq, hsf, hcm]
    exact ⟨rfl, rfl, rfl⟩

/-- The session a successful `ldacBT_encode` leaves: the configuration as before, the
overlap buffer refilled, the block counter incremented. -/
theorem ldacBT_encode_enough_handle (F : FloatOps) (h : ldacbt_handle) (p_pcm : Nat → Int)
    (pcm_used : Int) (p_stream : Nat → Nat) (stream_sz frame_num : Int)
    (hsz : encode_nbytes h.eqmid ≤ stream_sz) :
    ∃ h' : ldacbt_handle,
      (ldacBT_encode F (some h) p_pcm pcm_used p_stream stream_sz frame_num).hLdacBt
        = some h' ∧
      h'.eqmid = h.eqmid ∧ h'.sampling_freq = h.sampling_freq ∧
      h'.channel_mode = h.channel_mode ∧
      h'.prev_samples = (fill_buffers p_pcm h.prev_samples).prev_samples ∧
      h'.frame_count = wrap32 (h.frame_count + 1) := by
  rw [ldacBT_encode_enough F h p_pcm pcm_used p_stream stream_sz frame_num hsz]
  exact ⟨_, rfl, rfl, rfl, rfl, rfl, rfl⟩

theorem wrap32_succ (x : Int) (hlo : -2147483648 ≤ x) (hhi : x < 2147483647) :
    wrap32 (x + 1) = x + 1 := by
  unfold wrap32
  omega

/-- The block counter after one `ldacBT_encode`: incremented when the call returns 0, left
alone when it fails. -/
theorem ldacBT_encode_frame_count (F : FloatOps) (hLdacBt : HANDLE_LDAC_BT)
    (p_pcm : Nat → Int) (pcm_used : Int) (p_stream : Nat → Nat) (stream_sz frame_num : Int) :
    frame_count_of
        (ldacBT_encode F hLdacBt p_pcm pcm_used p_stream stream_sz frame_num).hLdacBt
      = (if (ldacBT_encode F hLdacBt p_pcm pcm_used p_stream stream_sz frame_num).ret = 0
          then wrap32 (frame_count_of hLdacBt + 1) else frame_count_of hLdacBt) := by
  cases hLdacBt with
  | none =>
    have hne : LDACBT_ERR_FATAL ≠ 0 := by decide
    simp only [ldacBT_encode, if_neg hne]
  | some h =>
    by_cases hsz : stream_sz < encode_nbytes h.eqmid
    · have hne : LDACBT_ERR_ILL_PARAM ≠ 0 := by decide
      rw [ldacBT_encode_small F h p_pcm pcm_used p_stream stream_sz frame_num hsz]
      simp only [if_neg hne]
    · rw [ldacBT_encode_enough F h p_pcm pcm_used p_stream stream_sz frame_num (not_lt.mp hsz)]
      simp only [if_true]
      rfl

/-- The block counter after one call that is not `ldacBT_init_handle_encode`. -/
theorem Op.run_frame_count (F : FloatOps) (hLdacBt : HANDLE_LDAC_BT) (op : Op)
    (hop : op.is_init = false) :
    frame_count_of (op.run F hLdacBt)
      = (if op.is_successful_encode F hLdacBt then wrap32 (frame_count_of hLdacBt + 1)
          else frame_count_of hLdacBt) := by
  cases op with
  | init_handle_encode mtu eqmid channel_mode fmt sampling_freq =>
    simp [Op.is_init] at hop
  | encode p_pcm pcm_used p_stream stream_sz frame_num =>
    simp only [Op.run, Op.is_successful_encode, decide_eq_true_eq]
    exact ldacBT_encode_frame_count F hLdacBt p_pcm pcm_used p_stream stream_sz frame_num
  | get_error_code => rfl
  | get_sampling_freq => rfl
  | get_bitrate => rfl

/-- Without a reconfiguration in between, the block counter advances by the number of
successful encodes, as long as it stays below 2^31. -/
theorem run_ops_frame_count (F : FloatOps) (ops : List Op) (hLdacBt : HANDLE_LDAC_BT)
    (hops : ∀ op ∈ ops, op.is_init = false) (hlo : 0 ≤ frame_count_of hLdacBt)
    (hhi : frame_count_of hLdacBt + (successful_encodes F hLdacBt ops : Int) < 2147483648) :
    frame_count_of (run_ops F hLdacBt ops)
      = frame_count_of hLdacBt + (successful_encodes F hLdacBt ops : Int) := by
  induction ops generalizing hLdacBt with
  | nil => simp [run_ops, successful_encodes]
  | cons op rest ih =>
    have hop : op.is_init = false := hops op (by simp)
    have hrest : ∀ o ∈ rest, o.is_init = false := fun o ho => hops o (by simp [ho])
    have hstep := Op.run_frame_count F hLdacBt op hop
    show frame_count_of (run_ops F (op.run F hLdacBt) rest) = _
    simp only [successful_encodes] at hhi ⊢
    by_cases hs : op.is_successful_encode F hLdacBt = true
    · simp only [hs, if_true] at hstep hhi ⊢
      have hw : wrap32 (frame_count_of hLdacBt + 1) = frame_count_of hLdacBt + 1 :=
        wrap32_succ _ (by omega) (by push_cast at hhi; omega)
      rw [hw] at hstep
      rw [ih (op.run F hLdacBt) hrest (by omega) (by push_cast at hhi ⊢; omega), hstep]
      push_cast
      omega
    · simp only [hs] at hstep hhi ⊢
      simp only [Bool.false_eq_true, if_false] at hstep hhi ⊢
      rw [ih (op.run F hLdacBt) hrest (by omega) (by push_cast at hhi ⊢; omega), hstep]
      push_cast
      omega

theorem foldl_add_single (f : Nat → ℝ) (m : Nat) (l : List Nat) (hl : l.Nodup)
    (hf : ∀ n ∈ l, n ≠ m → f n = 0) (a : ℝ) :
    l.foldl (fun sum n => sum + f n) a = a + (if m ∈ l then f m else 0) := by
  induction l generalizing a with
  | nil => simp
  | cons x t ih =>
    obtain ⟨hxt, ht⟩ := List.nodup_cons.mp hl
    have hft : ∀ n ∈ t, n ≠ m → f n = 0 := fun n hn => hf n (List.mem_cons_of_mem x hn)
    simp only [List.foldl_cons]
    rw [ih ht hft]
    by_cases hxm : x = m
    · subst hxm
      simp [hxt]
    · have hx0 : f x = 0 := hf x (List.mem_cons_self x t) hxm
      have hmem : m ∈ x :: t ↔ m ∈ t := by
        simp [List.mem_cons, Ne.symm hxm]
      by_cases hmt : m ∈ t
      · simp [hmt, hx0]
      · simp [hmt, hx0, Ne.symm hxm]

/-- The left window of the impulse block on a session with a silent overlap buffer: 1/2 at
index 128, zero at every other index below 256. -/
theorem fill_buffers_impulse_left_ch (n : Nat) (hn : n < 256) :
    (fill_buffers impulse_pcm hq_44100.prev_samples).left_ch n
      = (if n = 128 then 1 / 2 else 0) := by
  by_cases h1 : n < 128
  · have e := (fill_buffers_windows impulse_pcm hq_44100.prev_samples ⟨n, h1⟩).1.1
    simp only at e
    rw [e, if_neg (by omega)]
    rfl
  · have hlt : n - 128 < 128 := by omega
    have hn' : n - 128 + 128 = n := by omega
    have e := (fill_buffers_windows impulse_pcm hq_44100.prev_samples ⟨n - 128, hlt⟩).1.2
    simp only [hn'] at e
    rw [e]
    by_cases h2 : n = 128
    · subst h2
      norm_num [impulse_pcm]
    · have h3 : 2 * (n - 128) ≠ 0 := by omega
      rw [if_neg h2]
      simp [impulse_pcm, h3]

theorem cos_quarter_bounds :
    (98328 : ℝ) / 100000 ≤ Real.cos (119 * Real.pi / 2048) ∧
    Real.cos (119 * Real.pi / 2048) ≤ 9834 / 10000 := by
  have hlo := Real.pi_gt_d6
  have hhi := Real.pi_lt_d6
  have hy0 : (0 : ℝ) ≤ 119 * Real.pi / 2048 := by positivity
  have hy1 : 119 * Real.pi / 2048 ≤ 182544 / 1000000 := by linarith
  have hy2 : (182543 : ℝ) / 1000000 ≤ 119 * Real.pi / 2048 := by linarith
  have habs : |119 * Real.pi / 2048| ≤ 1 := by
    rw [abs_of_nonneg hy0]
    linarith
  have hb := Real.cos_bound habs
  rw [abs_of_nonneg hy0] at hb
  have hb' := abs_le.mp hb
  have hsq_lo : ((182543 : ℝ) / 1000000) ^ 2 ≤ (119 * Real.pi / 2048) ^ 2 := by gcongr
  have hsq_hi : (119 * Real.pi / 2048) ^ 2 ≤ ((182544 : ℝ) / 1000000) ^ 2 := by gcongr
  have h4_hi : (119 * Real.pi / 2048) ^ 4 ≤ ((182544 : ℝ) / 1000000) ^ 4 := by gcongr
  constructor
  · have := hb'.1
    norm_num at hsq_hi h4_hi ⊢
    linarith
  · have := hb'.2
    norm_num at hsq_lo h4_hi ⊢
    linarith

theorem cos_119_bounds :
    (7435 : ℝ) / 10000 ≤ Real.cos (119 * Real.pi / 512) ∧
    Real.cos (119 * Real.pi / 512) ≤ 7453 / 10000 := by
  obtain ⟨h1, h2⟩ := cos_quarter_bounds
  have e2 : Real.cos (2 * (119 * Real.pi / 2048))
      = 2 * Real.cos (119 * Real.pi / 2048) ^ 2 - 1 := Real.cos_two_mul _
  have e4 : Real.cos (2 * (2 * (119 * Real.pi / 2048)))
      = 2 * Real.cos (2 * (119 * Real.pi / 2048)) ^ 2 - 1 := Real.cos_two_mul _
  have harg : 119 * Real.pi / 512 = 2 * (2 * (119 * Real.pi / 2048)) := by ring
  have c2lo : (93367 : ℝ) / 100000 ≤ Real.cos (2 * (119 * Real.pi / 2048)) := by
    rw [e2]
    nlinarith
  have c2hi : Real.cos (2 * (119 * Real.pi / 2048)) ≤ 93416 / 100000 := by
    rw [e2]
    nlinarith
  rw [harg, e4]
  constructor <;> nlinarith

/-- The window coefficient at index 128 is `cos(π / 512)`, between 0.9999 and 1. -/
theorem kWindow_128_bounds : (9999 : ℝ) / 10000 ≤ kWindow 128 ∧ kWindow 128 ≤ 1 := by
  have hhi := Real.pi_lt_d2
  have hpos := Real.pi_pos
  have harg : (Real.pi / 256) * (((128 : Nat) : ℝ) + 0.5) = Real.pi / 512 + Real.pi / 2 := by
    push_cast
    ring
  unfold kWindow
  rw [harg, Real.sin_add_pi_div_two]
  refine ⟨?_, Real.cos_le_one _⟩
  have h := Real.one_sub_sq_div_two_le_cos (x := Real.pi / 512)
  have hx : Real.pi / 512 ≤ 1 / 100 := by linarith
  have hx0 : 0 ≤ Real.pi / 512 := by positivity
  have hsq : (Real.pi / 512) ^ 2 ≤ (1 / 100 : ℝ) ^ 2 := by gcongr
  norm_num at hsq
  linarith

/-- The cosine factor of `process_mdct` for `n = 128`, `k = 4` is `-cos(119 π / 512)`,
between -0.7453 and -0.7435. -/
theorem cos_term_128_4_bounds :
    -(7453 : ℝ) / 10000 ≤ Real.cos ((Real.pi / 128)
        * (((128 : Nat) : ℝ) + 0.5 + ((128 / 2 : Nat) : ℝ)) * (((4 : Nat) : ℝ) + 0.5)) ∧
    Real.cos ((Real.pi / 128) * (((128 : Nat) : ℝ) + 0.5 + ((128 / 2 : Nat) : ℝ))
        * (((4 : Nat) : ℝ) + 0.5)) ≤ -(7435 : ℝ) / 10000 := by
  have harg : (Real.pi / 128) * (((128 : Nat) : ℝ) + 0.5 + ((128 / 2 : Nat) : ℝ))
      * (((4 : Nat) : ℝ) + 0.5)
      = (Real.pi - 119 * Real.pi / 512) + ((3 : Nat) : ℝ) * (2 * Real.pi) := by
    norm_num
    ring
  obtain ⟨h1, h2⟩ := cos_119_bounds
  rw [harg, Real.cos_add_nat_mul_two_pi, Real.cos_pi_sub]
  constructor <;> linarith

/-! ## Quality table and bitrate -/

/-- C1. For a session whose quality mode is High, Standard or Mobile and whose sampling
frequency is 44100, 48000, 88200 or 96000, `ldacBT_get_bitrate` returns
`payloadBytes * 8 * samplingFrequency / 128` with truncating division, and neither
intermediate product leaves the range of a 32-bit signed integer. -/
theorem get_bitrate_formula (h : ldacbt_handle) (q : QualityMode)
    (hq : h.eqmid = q.toInt) (hsf : h.sampling_freq ∈ ga_smp_freq) :
    ldacBT_get_bitrate (some h) = Int.tdiv (payloadBytes q * 8 * h.sampling_freq) 128 ∧
    (-2147483648 ≤ payloadBytes q * 8 ∧ payloadBytes q * 8 ≤ 2147483647) ∧
    (-2147483648 ≤ payloadBytes q * 8 * h.sampling_freq ∧
      payloadBytes q * 8 * h.sampling_freq ≤ 2147483647) := by
  simp only [ga_smp_freq, List.mem_cons, List.mem_singleton, List.not_mem_nil, or_false] at hsf
  cases q <;> rcases hsf with e | e | e | e <;>
    simp only [ldacBT_get_bitrate, hq, e, QualityMode.toInt, payloadBytes] <;> decide

theorem get_bitrate_formula_witness :
    hq_44100.eqmid = QualityMode.High.toInt ∧ hq_44100.sampling_freq ∈ ga_smp_freq ∧
    ldacBT_get_bitrate (some hq_44100)
      = Int.tdiv (payloadBytes QualityMode.High * 8 * hq_44100.sampling_freq) 128 :=
  ⟨by decide, by decide,
    (get_bitrate_formula hq_44100 QualityMode.High (by decide) (by decide)).1⟩

/-! ## Frame length -/

/-- C2, counterexample. A High-quality session given a 1024-byte output buffer encodes
successfully and reports a frame length of 330, not 3 + 330. -/
theorem encode_stream_sz_high_is_330 :
    hq_44100.eqmid = QualityMode.High.toInt ∧
    (ldacBT_encode zero_float_ops (some hq_44100) silent_pcm 0 zero_stream 1024 0).ret = 0 ∧
    (ldacBT_encode zero_float_ops (some hq_44100) silent_pcm 0 zero_stream 1024 0).stream_sz
      = 330 ∧
    (ldacBT_encode zero_float_ops (some hq_44100) silent_pcm 0 zero_stream 1024 0).stream_sz
      ≠ 3 + payloadBytes QualityMode.High := by
  rw [ldacBT_encode_enough _ _ _ _ _ _ _ (by decide)]
  decide

/-- C2, amended. For every successful `ldacBT_encode` call the frame length reported in
`*stream_sz` is exactly the payload byte count of the quality mode, 330, 220 or 110: the
header bytes are counted inside it. -/
theorem encode_stream_sz_eq_payloadBytes (F : FloatOps) (h : ldacbt_handle) (q : QualityMode)
    (p_pcm : Nat → Int) (pcm_used : Int) (p_stream : Nat → Nat) (stream_sz frame_num : Int)
    (hq : h.eqmid = q.toInt)
    (hret : (ldacBT_encode F (some h) p_pcm pcm_used p_stream stream_sz frame_num).ret = 0) :
    (ldacBT_encode F (some h) p_pcm pcm_used p_stream stream_sz frame_num).stream_sz
      = payloadBytes q := by
  by_cases hsz : stream_sz < encode_nbytes h.eqmid
  · rw [ldacBT_encode_small F h p_pcm pcm_used p_stream stream_sz frame_num hsz] at hret
    exact absurd hret (show LDACBT_ERR_ILL_PARAM ≠ 0 by decide)
  · rw [ldacBT_encode_enough F h p_pcm pcm_used p_stream stream_sz frame_num (not_lt.mp hsz)]
    cases q <;> simp only [hq, QualityMode.toInt, payloadBytes] <;> decide

theorem encode_stream_sz_eq_payloadBytes_witness :
    hq_44100.eqmid = QualityMode.High.toInt ∧
    (ldacBT_encode zero_float_ops (some hq_44100) silent_pcm 0 zero_stream 1024 0).ret = 0 ∧
    (ldacBT_encode zero_float_ops (some hq_44100) silent_pcm 0 zero_stream 1024 0).stream_sz
      = payloadBytes QualityMode.High :=
  have hret :
      (ldacBT_encode zero_float_ops (some hq_44100) silent_pcm 0 zero_stream 1024 0).ret = 0 := by
    rw [ldacBT_encode_enough _ _ _ _ _ _ _ (by decide)]
  ⟨by decide, hret,
    encode_stream_sz_eq_payloadBytes zero_float_ops hq_44100 QualityMode.High silent_pcm 0
      zero_stream 1024 0 (by decide) hret⟩

/-! ## Header byte -/

/-- Decoding of the header byte for the supported pairs: the top three bits index the
sampling frequency in `ga_smp_freq`, the low three bits are the channel mode. -/
theorem encode_header_byte_decode (sampling_freq channel_mode : Int)
    (hsf : sampling_freq ∈ ga_smp_freq)
    (hcm : channel_mode ∈ [LDACBT_CHANNEL_MODE_STEREO, LDACBT_CHANNEL_MODE_DUAL_CHANNEL,
      LDACBT_CHANNEL_MODE_MONO]) :
    encode_header_byte sampling_freq channel_mode < 256 ∧
    ga_smp_freq[encode_header_byte sampling_freq channel_mode >>> 5]? = some sampling_freq ∧
    ((encode_header_byte sampling_freq channel_mode &&& 7 : Nat) : Int) = channel_mode ∧
    ∃ sfIdx : Nat, sfIdx < 4 ∧ ga_smp_freq[sfIdx]? = some sampling_freq ∧
      (encode_header_byte sampling_freq channel_mode : Int)
        = Int.lor ((sfIdx : Int) <<< (5 : Int)) (Int.land channel_mode 7) := by
  simp only [ga_smp_freq, List.mem_cons, List.mem_singleton, List.not_mem_nil, or_false] at hsf hcm
  rcases hsf with e | e | e | e <;> rcases hcm with c | c | c <;> subst e <;> subst c <;>
    refine ⟨by decide, by decide, by decide, ?_⟩
  · exact ⟨0, by decide, by decide, by decide⟩
  · exact ⟨0, by decide, by decide, by decide⟩
  · exact ⟨0, by decide, by decide, by decide⟩
  · exact ⟨1, by decide, by decide, by decide⟩
  · exact ⟨1, by decide, by decide, by decide⟩
  · exact ⟨1, by decide, by decide, by decide⟩
  · exact ⟨2, by decide, by decide, by decide⟩
  · exact ⟨2, by decide, by decide, by decide⟩
  · exact ⟨2, by decide, by decide, by decide⟩
  · exact ⟨3, by decide, by decide, by decide⟩
  · exact ⟨3, by decide, by decide, by decide⟩
  · exact ⟨3, by decide, by decide, by decide⟩

/-- C3. For a sampling frequency in {44100, 48000, 88200, 96000} and a channel mode in
{0, 1, 2}, the byte a successful `ldacBT_encode` writes at index 1 is
`(sfIdx << 5) | (channelMode & 0x7)` with `sfIdx` the position of the frequency in that list;
it is below 256; shifting it right by 5 recovers the frequency and masking it with 7
recovers the channel mode; and two supported pairs with the same header byte are equal. -/
theorem encode_header_lossless (F : FloatOps) (h : ldacbt_handle) (p_pcm : Nat → Int)
    (pcm_used : Int) (p_stream : Nat → Nat) (stream_sz frame_num : Int)
    (hsf : h.sampling_freq ∈ ga_smp_freq)
    (hcm : h.channel_mode ∈ [LDACBT_CHANNEL_MODE_STEREO, LDACBT_CHANNEL_MODE_DUAL_CHANNEL,
      LDACBT_CHANNEL_MODE_MONO])
    (hsz : encode_nbytes h.eqmid ≤ stream_sz) :
    (∃ sfIdx : Nat, sfIdx < 4 ∧ ga_smp_freq[sfIdx]? = some h.sampling_freq ∧
      ((ldacBT_encode F (some h) p_pcm pcm_used p_stream stream_sz frame_num).p_stream 1 : Int)
        = Int.lor ((sfIdx : Int) <<< (5 : Int)) (Int.land h.channel_mode 7)) ∧
    (ldacBT_encode F (some h) p_pcm pcm_used p_stream stream_sz frame_num).p_stream 1 < 256 ∧
    ga_smp_freq[(ldacBT_encode F (some h) p_pcm pcm_used p_stream stream_sz
      frame_num).p_stream 1 >>> 5]? = some h.sampling_freq ∧
    (((ldacBT_encode F (some h) p_pcm pcm_used p_stream stream_sz frame_num).p_stream 1
      &&& 7 : Nat) : Int) = h.channel_mode ∧
    ∀ (F' : FloatOps) (h' : ldacbt_handle) (p_pcm' : Nat → Int) (pcm_used' : Int)
      (p_stream' : Nat → Nat) (stream_sz' frame_num' : Int),
      h'.sampling_freq ∈ ga_smp_freq →
      h'.channel_mode ∈ [LDACBT_CHANNEL_MODE_STEREO, LDACBT_CHANNEL_MODE_DUAL_CHANNEL,
        LDACBT_CHANNEL_MODE_MONO] →
      encode_nbytes h'.eqmid ≤ stream_sz' →
      (ldacBT_encode F' (some h') p_pcm' pcm_used' p_stream' stream_sz' frame_num').p_stream 1
        = (ldacBT_encode F (some h) p_pcm pcm_used p_stream stream_sz frame_num).p_stream 1 →
      h'.sampling_freq = h.sampling_freq ∧ h'.channel_mode = h.channel_mode := by
  obtain ⟨hlt, hfreq, hmode, hidx⟩ := encode_header_byte_decode _ _ hsf hcm
  rw [(ldacBT_encode_header F h p_pcm pcm_used p_stream stream_sz frame_num hsz).2.1]
  refine ⟨hidx, hlt, hfreq, hmode, ?_⟩
  intro F' h' p_pcm' pcm_used' p_stream' stream_sz' frame_num' hsf' hcm' hsz' hbyte
  obtain ⟨_, hfreq', hmode', _⟩ := encode_header_byte_decode _ _ hsf' hcm'
  rw [(ldacBT_encode_header F' h' p_pcm' pcm_used' p_stream' stream_sz' frame_num'
    hsz').2.1] at hbyte
  rw [hbyte] at hfreq' hmode'
  constructor
  · exact Option.some.inj (hfreq'.symm.trans hfreq)
  · exact hmode'.symm.trans hmode

theorem encode_header_lossless_witness :
    hq_44100.sampling_freq ∈ ga_smp_freq ∧
    encode_nbytes hq_44100.eqmid ≤ 1024 ∧
    ga_smp_freq[(ldacBT_encode zero_float_ops (some hq_44100) silent_pcm 0 zero_stream 1024
      0).p_stream 1 >>> 5]? = some hq_44100.sampling_freq :=
  ⟨by decide, by decide,
    (encode_header_lossless zero_float_ops hq_44100 silent_pcm 0 zero_stream 1024 0
      (by decide) (by decide) (by decide)).2.2.1⟩

/-! ## Length byte -/

/-- C4, the code at a High-quality session. `p_stream[2] = nbytes` stores 330 in an
`unsigned char`: the length byte of a successful High-quality frame is 330 - 256 = 74, not
the payload byte count 330. -/
theorem encode_length_byte_high_is_74 :
    hq_44100.eqmid = QualityMode.High.toInt ∧
    (ldacBT_encode zero_float_ops (some hq_44100) silent_pcm 0 zero_stream 1024 0).ret = 0 ∧
    (ldacBT_encode zero_float_ops (some hq_44100) silent_pcm 0 zero_stream 1024 0).p_stream 2
      = 74 ∧
    (((ldacBT_encode zero_float_ops (some hq_44100) silent_pcm 0 zero_stream 1024 0).p_stream 2
      : Nat) : Int) ≠ payloadBytes QualityMode.High := by
  have hsz : encode_nbytes hq_44100.eqmid ≤ 1024 := by decide
  rw [(ldacBT_encode_header zero_float_ops hq_44100 silent_pcm 0 zero_stream 1024 0 hsz).2.2]
  rw [ldacBT_encode_enough _ _ _ _ _ _ _ hsz]
  decide

/-! ## Insufficient output capacity -/

/-- C5. On a non-null session, `ldacBT_encode` called with an output capacity below the
payload byte count of the stored quality mode returns `LDACBT_ERR_ILL_PARAM` and leaves the
session as it was (`prev_samples`, `frame_count` and every configuration field), so that any
later encode gives what it would have given without the failed call. -/
theorem encode_small_capacity_unchanged (F : FloatOps) (h : ldacbt_handle) (p_pcm : Nat → Int)
    (pcm_used : Int) (p_stream : Nat → Nat) (stream_sz frame_num : Int)
    (hsz : stream_sz < encode_nbytes h.eqmid) :
    (ldacBT_encode F (some h) p_pcm pcm_used p_stream stream_sz frame_num).ret
      = LDACBT_ERR_ILL_PARAM ∧
    LDACBT_ERR_ILL_PARAM = 3 ∧
    (ldacBT_encode F (some h) p_pcm pcm_used p_stream stream_sz frame_num).hLdacBt = some h ∧
    ∀ (p_pcm' : Nat → Int) (pcm_used' : Int) (p_stream' : Nat → Nat)
      (stream_sz' frame_num' : Int),
      ldacBT_encode F
          (ldacBT_encode F (some h) p_pcm pcm_used p_stream stream_sz frame_num).hLdacBt
          p_pcm' pcm_used' p_stream' stream_sz' frame_num'
        = ldacBT_encode F (some h) p_pcm' pcm_used' p_stream' stream_sz' frame_num' := by
  rw [ldacBT_encode_small F h p_pcm pcm_used p_stream stream_sz frame_num hsz]
  exact ⟨rfl, rfl, rfl, fun _ _ _ _ _ => rfl⟩

theorem encode_small_capacity_unchanged_witness :
    (329 : Int) < encode_nbytes hq_44100.eqmid ∧
    (ldacBT_encode zero_float_ops (some hq_44100) impulse_pcm 0 zero_stream 329 0).ret
      = LDACBT_ERR_ILL_PARAM ∧
    (ldacBT_encode zero_float_ops (some hq_44100) impulse_pcm 0 zero_stream 329 0).hLdacBt
      = some hq_44100 :=
  ⟨by decide,
    (encode_small_capacity_unchanged zero_float_ops hq_44100 impulse_pcm 0 zero_stream 329 0
      (by decide)).1,
    (encode_small_capacity_unchanged zero_float_ops hq_44100 impulse_pcm 0 zero_stream 329 0
      (by decide)).2.2.1⟩

/-! ## Configuration -/

/-- C6, counterexample. Configuring a fresh session with the sampling frequency 22050, which
is not in `ga_smp_freq`, returns 0 rather than `LDACBT_ERR_ILL_PARAM`, and the session then
reports 22050 as its sampling frequency. -/
theorem init_handle_encode_accepts_22050 :
    (22050 : Int) ∉ ga_smp_freq ∧
    (ldacBT_init_handle_encode (ldacBT_get_handle true) 679 LDACBT_EQMID_HQ
      LDACBT_CHANNEL_MODE_STEREO LDACBT_SMPL_FMT_S16 22050).1 ≠ LDACBT_ERR_ILL_PARAM ∧
    (ldacBT_init_handle_encode (ldacBT_get_handle true) 679 LDACBT_EQMID_HQ
      LDACBT_CHANNEL_MODE_STEREO LDACBT_SMPL_FMT_S16 22050).2 ≠ ldacBT_get_handle true ∧
    ldacBT_get_sampling_freq (ldacBT_init_handle_encode (ldacBT_get_handle true) 679
      LDACBT_EQMID_HQ LDACBT_CHANNEL_MODE_STEREO LDACBT_SMPL_FMT_S16 22050).2 = 22050 := by
  refine ⟨by decide, by decide, ?_, by decide⟩
  intro e
  have hfreq := congrArg ldacBT_get_sampling_freq e
  revert hfreq
  decide

/-- C6, amended. `ldacBT_init_handle_encode` does not validate its arguments: on every
non-null session and for every configuration, whether or not the sampling frequency, the
channel mode and the quality mode are supported values, it returns 0 and stores the five
configuration fields as given. -/
theorem init_handle_encode_stores_any (h : ldacbt_handle)
    (mtu eqmid channel_mode fmt sampling_freq : Int) :
    (ldacBT_init_handle_encode (some h) mtu eqmid channel_mode fmt sampling_freq).1 = 0 ∧
    ∃ h' : ldacbt_handle,
      (ldacBT_init_handle_encode (some h) mtu eqmid channel_mode fmt sampling_freq).2
        = some h' ∧
      h'.mtu = mtu ∧ h'.eqmid = eqmid ∧ h'.channel_mode = channel_mode ∧ h'.fmt = fmt ∧
      h'.sampling_freq = sampling_freq :=
  ⟨rfl, _, rfl, rfl, rfl, rfl, rfl, rfl⟩

/-! ## Encoding before configuration -/

/-- C7, counterexample. On the session `ldacBT_get_handle` returns, without any
configuration, `ldacBT_encode` with a 1024-byte output buffer returns 0 and produces a
330-byte frame that starts with the sync byte. -/
theorem encode_unconfigured_succeeds :
    (ldacBT_encode zero_float_ops (ldacBT_get_handle true) silent_pcm 0 zero_stream 1024 0).ret
      = 0 ∧
    (ldacBT_encode zero_float_ops (ldacBT_get_handle true) silent_pcm 0 zero_stream 1024
      0).stream_sz = 330 ∧
    (ldacBT_encode zero_float_ops (ldacBT_get_handle true) silent_pcm 0 zero_stream 1024
      0).p_stream 0 = 0xAA := by
  have hsz : encode_nbytes calloc_handle.eqmid ≤ 1024 := by decide
  refine ⟨?_, ?_, ?_⟩
  · show (ldacBT_encode zero_float_ops (some calloc_handle) silent_pcm 0 zero_stream 1024
      0).ret = 0
    rw [ldacBT_encode_enough _ _ _ _ _ _ _ hsz]
  · show (ldacBT_encode zero_float_ops (some calloc_handle) silent_pcm 0 zero_stream 1024
      0).stream_sz = 330
    rw [ldacBT_encode_enough _ _ _ _ _ _ _ hsz]
    decide
  · exact (ldacBT_encode_header zero_float_ops calloc_handle silent_pcm 0 zero_stream 1024 0
      hsz).1

/-- C7, amended. On the session `ldacBT_get_handle` returns, never configured,
`ldacBT_encode` fails, with `LDACBT_ERR_ILL_PARAM` and without writing to the output, exactly
when the output capacity is below 330; with a capacity of 330 or more it returns 0 and
produces a frame from the zero-initialised configuration (quality mode 0, sampling frequency
index 0, channel mode 0): sync byte 0xAA, header byte 0 and a reported length of 330. -/
theorem encode_unconfigured (F : FloatOps) (p_pcm : Nat → Int) (pcm_used : Int)
    (p_stream : Nat → Nat) (stream_sz frame_num : Int) :
    (ldacBT_encode F (ldacBT_get_handle true) p_pcm pcm_used p_stream stream_sz frame_num).ret
      = (if stream_sz < 330 then LDACBT_ERR_ILL_PARAM else 0) ∧
    (ldacBT_encode F (ldacBT_get_handle true) p_pcm pcm_used p_stream stream_sz
      frame_num).stream_sz = (if stream_sz < 330 then stream_sz else 330) ∧
    (ldacBT_encode F (ldacBT_get_handle true) p_pcm pcm_used p_stream stream_sz
      frame_num).p_stream 0 = (if stream_sz < 330 then p_stream 0 else 0xAA) ∧
    (ldacBT_encode F (ldacBT_get_handle true) p_pcm pcm_used p_stream stream_sz
      frame_num).p_stream 1 = (if stream_sz < 330 then p_stream 1 else 0) ∧
    (stream_sz < 330 →
      (ldacBT_encode F (ldacBT_get_handle true) p_pcm pcm_used p_stream stream_sz
        frame_num).p_stream = p_stream) := by
  have hn : encode_nbytes calloc_handle.eqmid = 330 := by decide
  have hb : encode_header_byte calloc_handle.sampling_freq calloc_handle.channel_mode = 0 := by
    decide
  show (ldacBT_encode F (some calloc_handle) p_pcm pcm_used p_stream stream_sz frame_num).ret
      = _ ∧
    (ldacBT_encode F (some calloc_handle) p_pcm pcm_used p_stream stream_sz
      frame_num).stream_sz = _ ∧
    (ldacBT_encode F (some calloc_handle) p_pcm pcm_used p_stream stream_sz
      frame_num).p_stream 0 = _ ∧
    (ldacBT_encode F (some calloc_handle) p_pcm pcm_used p_stream stream_sz
      frame_num).p_stream 1 = _ ∧
    (_ → (ldacBT_encode F (some calloc_handle) p_pcm pcm_used p_stream stream_sz
      frame_num).p_stream = _)
  by_cases hsz : stream_sz < 330
  · rw [ldacBT_encode_small F calloc_handle p_pcm pcm_used p_stream stream_sz frame_num
      (hn ▸ hsz)]
    simp [hsz]
  · have hge : encode_nbytes calloc_handle.eqmid ≤ stream_sz := hn ▸ not_lt.mp hsz
    obtain ⟨h0, h1, _⟩ :=
      ldacBT_encode_header F calloc_handle p_pcm pcm_used p_stream stream_sz frame_num hge
    rw [h0, h1, hb]
    rw [ldacBT_encode_enough F calloc_handle p_pcm pcm_used p_stream stream_sz frame_num hge]
    simp [hsz, hn]

theorem encode_unconfigured_witness :
    (ldacBT_encode zero_float_ops (ldacBT_get_handle true) silent_pcm 0 zero_stream 100 0).ret
      = LDACBT_ERR_ILL_PARAM ∧
    (ldacBT_encode zero_float_ops (ldacBT_get_handle true) silent_pcm 0 zero_stream 100
      0).p_stream = zero_stream :=
  ⟨(encode_unconfigured zero_float_ops silent_pcm 0 zero_stream 100 0).1,
    (encode_unconfigured zero_float_ops silent_pcm 0 zero_stream 100 0).2.2.2.2 (by decide)⟩

/-! ## Reconfiguration -/

/-- C8, the code on a used session. A High-quality session encodes one block whose first
left sample is 16384 and is then configured again with a valid configuration:
`ldacBT_init_handle_encode` returns 0, stores the configuration and sets `frame_count` to 0,
but `prev_samples[0][0]` still holds 16384 / 32768 = 1/2 instead of zero. -/
theorem init_handle_encode_keeps_prev_samples :
    (ldacBT_encode zero_float_ops (some hq_44100) impulse_pcm 0 zero_stream 1024 0).ret = 0 ∧
    (ldacBT_init_handle_encode
      (ldacBT_encode zero_float_ops (some hq_44100) impulse_pcm 0 zero_stream 1024 0).hLdacBt
      679 LDACBT_EQMID_SQ LDACBT_CHANNEL_MODE_STEREO LDACBT_SMPL_FMT_S16 48000).1 = 0 ∧
    ∃ h' : ldacbt_handle,
      (ldacBT_init_handle_encode
        (ldacBT_encode zero_float_ops (some hq_44100) impulse_pcm 0 zero_stream 1024 0).hLdacBt
        679 LDACBT_EQMID_SQ LDACBT_CHANNEL_MODE_STEREO LDACBT_SMPL_FMT_S16 48000).2
          = some h' ∧
      h'.eqmid = LDACBT_EQMID_SQ ∧ h'.sampling_freq = 48000 ∧ h'.frame_count = 0 ∧
      h'.prev_samples 0 0 = 1 / 2 ∧ h'.prev_samples 0 0 ≠ 0 := by
  have hsz : encode_nbytes hq_44100.eqmid ≤ 1024 := by decide
  have hprev : (fill_buffers impulse_pcm hq_44100.prev_samples).prev_samples 0 0 = 1 / 2 := by
    rw [(fill_buffers_prev_samples impulse_pcm hq_44100.prev_samples 0).1]
    norm_num [impulse_pcm]
  rw [ldacBT_encode_enough _ _ _ _ _ _ _ hsz]
  simp only [ldacBT_init_handle_encode]
  refine ⟨trivial, trivial, _, rfl, ?_⟩
  dsimp only
  rw [hprev]
  refine ⟨rfl, rfl, rfl, rfl, ?_⟩
  norm_num

/-! ## Error code -/

/-- C9, counterexample. On a fresh session an `ldacBT_encode` with output capacity 0 fails
with `LDACBT_ERR_ILL_PARAM`, and `ldacBT_get_error_code` called right after it returns
`LDACBT_ERR_NONE`. -/
theorem get_error_code_after_failed_encode :
    (ldacBT_encode zero_float_ops (ldacBT_get_handle true) silent_pcm 0 zero_stream 0 0).ret
      = LDACBT_ERR_ILL_PARAM ∧
    ldacBT_get_error_code
      (ldacBT_encode zero_float_ops (ldacBT_get_handle true) silent_pcm 0 zero_stream 0
        0).hLdacBt = LDACBT_ERR_NONE ∧
    ldacBT_get_error_code
      (ldacBT_encode zero_float_ops (ldacBT_get_handle true) silent_pcm 0 zero_stream 0
        0).hLdacBt ≠ LDACBT_ERR_ILL_PARAM := by
  have hsz : (0 : Int) < encode_nbytes calloc_handle.eqmid := by decide
  show (ldacBT_encode zero_float_ops (some calloc_handle) silent_pcm 0 zero_stream 0 0).ret
      = LDACBT_ERR_ILL_PARAM ∧
    ldacBT_get_error_code
      (ldacBT_encode zero_float_ops (some calloc_handle) silent_pcm 0 zero_stream 0
        0).hLdacBt = LDACBT_ERR_NONE ∧
    ldacBT_get_error_code
      (ldacBT_encode zero_float_ops (some calloc_handle) silent_pcm 0 zero_stream 0
        0).hLdacBt ≠ LDACBT_ERR_ILL_PARAM
  rw [ldacBT_encode_small _ _ _ _ _ _ _ hsz]
  decide

/-- No call writes the `error_code` field. -/
theorem Op.run_error_code (F : FloatOps) (hLdacBt : HANDLE_LDAC_BT) (op : Op) :
    ldacBT_get_error_code (op.run F hLdacBt) = ldacBT_get_error_code hLdacBt := by
  cases hLdacBt with
  | none => cases op <;> rfl
  | some h =>
    cases op with
    | init_handle_encode mtu eqmid channel_mode fmt sampling_freq => rfl
    | encode p_pcm pcm_used p_stream stream_sz frame_num =>
      by_cases hsz : stream_sz < encode_nbytes h.eqmid
      · simp only [Op.run]
        rw [ldacBT_encode_small F h p_pcm pcm_used p_stream stream_sz frame_num hsz]
      · simp only [Op.run]
        rw [ldacBT_encode_enough F h p_pcm pcm_used p_stream stream_sz frame_num
          (not_lt.mp hsz)]
        rfl
    | get_error_code => rfl
    | get_sampling_freq => rfl
    | get_bitrate => rfl

theorem run_ops_error_code (F : FloatOps) (ops : List Op) (hLdacBt : HANDLE_LDAC_BT) :
    ldacBT_get_error_code (run_ops F hLdacBt ops) = ldacBT_get_error_code hLdacBt := by
  induction ops generalizing hLdacBt with
  | nil => rfl
  | cons op rest ih =>
    show ldacBT_get_error_code (run_ops F (op.run F hLdacBt) rest) = _
    rw [ih, Op.run_error_code]

/-- C9, amended. `ldacBT_get_error_code` returns the stored `error_code` field, which no
operation writes: every call, successful or failed, leaves its value as it was, so on a
session obtained from `ldacBT_get_handle` it returns `LDACBT_ERR_NONE` after every sequence
of operations, also right after an `ldacBT_encode` that failed with
`LDACBT_ERR_ILL_PARAM`. -/
theorem get_error_code_always_none (F : FloatOps) (calloc_ok : Bool) (ops : List Op) :
    ldacBT_get_error_code (run_ops F (ldacBT_get_handle calloc_ok) ops) = LDACBT_ERR_NONE ∧
    ∀ (hLdacBt : HANDLE_LDAC_BT) (op : Op),
      ldacBT_get_error_code (op.run F hLdacBt) = ldacBT_get_error_code hLdacBt := by
  refine ⟨?_, Op.run_error_code F⟩
  rw [run_ops_error_code]
  cases calloc_ok <;> rfl

/-! ## Bitrate of the High mode at 44100 Hz -/

/-- C10, counterexample. For a High-quality session at 44100 Hz `ldacBT_get_bitrate` returns
909562, not 113696, and 909562 is the truncated value of 330 * 8 * 44100 / 128. -/
theorem get_bitrate_high_44100_not_113696 :
    hq_44100.eqmid = LDACBT_EQMID_HQ ∧ hq_44100.sampling_freq = 44100 ∧
    ldacBT_get_bitrate (some hq_44100) ≠ 113696 ∧
    Int.tdiv (330 * 8 * 44100) 128 ≠ 113696 := by
  decide

/-- C10, amended. For a session configured with quality mode High and sampling frequency
44100 Hz, `ldacBT_get_bitrate` returns 909,562 bits/second, the truncated value of
330 * 8 * 44100 / 128. -/
theorem get_bitrate_high_44100 (h : ldacbt_handle) (hq : h.eqmid = LDACBT_EQMID_HQ)
    (hsf : h.sampling_freq = 44100) :
    ldacBT_get_bitrate (some h) = 909562 ∧ Int.tdiv (330 * 8 * 44100) 128 = 909562 := by
  simp only [ldacBT_get_bitrate, hq, hsf]
  decide

theorem get_bitrate_high_44100_witness :
    hq_44100.eqmid = LDACBT_EQMID_HQ ∧ hq_44100.sampling_freq = 44100 ∧
    ldacBT_get_bitrate (some hq_44100) = 909562 :=
  ⟨by decide, by decide, (get_bitrate_high_44100 hq_44100 (by decide) (by decide)).1⟩

/-! ## Sync byte -/

/-- C11. On a non-null session, for every PCM block and every output capacity that is at
least the frame size of the stored quality mode, `ldacBT_encode` succeeds and writes the sync
value 0xAA at frame index 0. -/
theorem encode_sync_byte (F : FloatOps) (h : ldacbt_handle) (p_pcm : Nat → Int)
    (pcm_used : Int) (p_stream : Nat → Nat) (stream_sz frame_num : Int)
    (hsz : encode_nbytes h.eqmid ≤ stream_sz) :
    (ldacBT_encode F (some h) p_pcm pcm_used p_stream stream_sz frame_num).ret = 0 ∧
    (ldacBT_encode F (some h) p_pcm pcm_used p_stream stream_sz frame_num).p_stream 0
      = 0xAA := by
  refine ⟨?_, (ldacBT_encode_header F h p_pcm pcm_used p_stream stream_sz frame_num hsz).1⟩
  rw [ldacBT_encode_enough F h p_pcm pcm_used p_stream stream_sz frame_num hsz]

theorem encode_sync_byte_witness :
    encode_nbytes hq_44100.eqmid ≤ 330 ∧
    (ldacBT_encode zero_float_ops (some hq_44100) loud_pcm 0 sevens_stream 330 0).p_stream 0
      = 0xAA :=
  ⟨by decide,
    (encode_sync_byte zero_float_ops hq_44100 loud_pcm 0 sevens_stream 330 0 (by decide)).2⟩

/-! ## One table, two consultations -/

/-- C12. For every integer value of the stored quality mode, in range or not, the byte count
`nbytes` that `ldacBT_encode` compares the output capacity with is the `framesize` that
`ldacBT_get_bitrate` multiplies: on a session storing that quality mode, `ldacBT_encode`
fails for lack of capacity exactly when the capacity is below that `framesize`, and the
bitrate is computed from that `nbytes`. -/
theorem encode_nbytes_eq_bitrate_framesize (eqmid : Int) (F : FloatOps) (h : ldacbt_handle)
    (p_pcm : Nat → Int) (pcm_used : Int) (p_stream : Nat → Nat) (stream_sz frame_num : Int) :
    encode_nbytes eqmid = bitrate_framesize eqmid ∧
    ((ldacBT_encode F (some { h with eqmid := eqmid }) p_pcm pcm_used p_stream stream_sz
        frame_num).ret = LDACBT_ERR_ILL_PARAM ↔ stream_sz < bitrate_framesize eqmid) ∧
    ldacBT_get_bitrate (some { h with eqmid := eqmid })
      = wrap32 (Int.tdiv (wrap32 (wrap32 (encode_nbytes eqmid * 8) * h.sampling_freq)) 128) := by
  have hsame : encode_nbytes eqmid = bitrate_framesize eqmid := rfl
  refine ⟨hsame, ?_, rfl⟩
  rw [← hsame]
  by_cases hsz : stream_sz < encode_nbytes eqmid
  · rw [ldacBT_encode_small F { h with eqmid := eqmid } p_pcm pcm_used p_stream stream_sz
      frame_num hsz]
    exact ⟨fun _ => hsz, fun _ => rfl⟩
  · rw [ldacBT_encode_enough F { h with eqmid := eqmid } p_pcm pcm_used p_stream stream_sz
      frame_num (not_lt.mp hsz)]
    constructor
    · intro e
      exact absurd e (show (0 : Int) ≠ LDACBT_ERR_ILL_PARAM by decide)
    · intro e
      exact absurd e hsz

/-! ## Overlap state after a successful encode -/

/-- C14. After a successful `ldacBT_encode` the overlap buffer holds the current block,
de-interleaved, normalised and in order: `prev_samples[0][i] = pcm[2*i] / 32768` and
`prev_samples[1][i] = pcm[2*i+1] / 32768` for every `i` in 0..127. The new overlap buffer is
the same whatever the session (and so the previous overlap buffer) was. -/
theorem encode_prev_samples (F : FloatOps) (h : ldacbt_handle) (p_pcm : Nat → Int)
    (pcm_used : Int) (p_stream : Nat → Nat) (stream_sz frame_num : Int)
    (hsz : encode_nbytes h.eqmid ≤ stream_sz) :
    ∃ h' : ldacbt_handle,
      (ldacBT_encode F (some h) p_pcm pcm_used p_stream stream_sz frame_num).hLdacBt
        = some h' ∧
      (∀ i : Fin 128,
        h'.prev_samples 0 i = (p_pcm (2 * i.val) : Rat) / 32768 ∧
        h'.prev_samples 1 i = (p_pcm (2 * i.val + 1) : Rat) / 32768) ∧
      ∀ (F₂ : FloatOps) (h₂ : ldacbt_handle) (pcm_used₂ : Int) (p_stream₂ : Nat → Nat)
        (stream_sz₂ frame_num₂ : Int), encode_nbytes h₂.eqmid ≤ stream_sz₂ →
        ∃ h₂' : ldacbt_handle,
          (ldacBT_encode F₂ (some h₂) p_pcm pcm_used₂ p_stream₂ stream_sz₂ frame_num₂).hLdacBt
            = some h₂' ∧
          h₂'.prev_samples = h'.prev_samples := by
  rw [ldacBT_encode_enough F h p_pcm pcm_used p_stream stream_sz frame_num hsz]
  refine ⟨_, rfl, ?_, ?_⟩
  · intro i
    exact fill_buffers_prev_samples p_pcm h.prev_samples i
  · intro F₂ h₂ pcm_used₂ p_stream₂ stream_sz₂ frame_num₂ hsz₂
    rw [ldacBT_encode_enough F₂ h₂ p_pcm pcm_used₂ p_stream₂ stream_sz₂ frame_num₂ hsz₂]
    refine ⟨_, rfl, ?_⟩
    exact fill_buffers_prev_samples_congr p_pcm p_pcm h₂.prev_samples h.prev_samples
      (fun _ _ => rfl)

theorem encode_prev_samples_witness :
    encode_nbytes hq_44100.eqmid ≤ 1024 ∧
    ∃ h' : ldacbt_handle,
      (ldacBT_encode zero_float_ops (some hq_44100) impulse_pcm 0 zero_stream 1024 0).hLdacBt
        = some h' ∧
      ∀ i : Fin 128,
        h'.prev_samples 0 i = (impulse_pcm (2 * i.val) : Rat) / 32768 ∧
        h'.prev_samples 1 i = (impulse_pcm (2 * i.val + 1) : Rat) / 32768 :=
  ⟨by decide,
    (encode_prev_samples zero_float_ops hq_44100 impulse_pcm 0 zero_stream 1024 0
      (by decide)).elim fun h' hh => ⟨h', hh.1, hh.2.1⟩⟩

/-! ## Block length -/

/-- C13, counterexample. `LdacEncoder::Encode` called on a High-quality session with a
buffer of 1024 bytes, two blocks instead of one: `ldacBT_encode` returns 0, not
`LDACBT_ERR_ILL_PARAM`, and a frame of 330 bytes comes back. -/
theorem Encode_accepts_1024_bytes :
    (List.replicate 1024 (0 : Nat)).length ≠ 512 ∧
    (ldacBT_encode zero_float_ops (some hq_44100)
      (pcm_short (buffer_memory (List.replicate 1024 0) zero_stream)) 0 sevens_stream 1024
      0).ret ≠ LDACBT_ERR_ILL_PARAM ∧
    (LdacEncoder.Encode zero_float_ops (some hq_44100) (List.replicate 1024 0) zero_stream
      sevens_stream).1.length = 330 := by
  have hsz : encode_nbytes hq_44100.eqmid ≤ 1024 := by decide
  refine ⟨?_, ?_, ?_⟩
  · rw [List.length_replicate]
    decide
  · rw [ldacBT_encode_enough _ _ _ _ _ _ _ hsz]
    decide
  · rw [Encode_length]
    decide

/-- C13, amended. The encode operation does not look at the length of the PCM block:
`ldacBT_encode` receives no length and `LdacEncoder::Encode` does not use the length of its
Buffer. For every Buffer of at least 512 bytes, of exactly one block or longer, encode on a
non-null session returns 0, reports 512 bytes consumed and returns a frame of `nbytes` bytes,
and the frame and the session afterwards are functions of the first 512 bytes only. -/
theorem Encode_ignores_length (F : FloatOps) (h : ldacbt_handle)
    (inputBuffer inputBuffer' : List Nat) (beyond beyond' : Nat → Nat) (stream : Nat → Nat)
    (hlen : 512 ≤ inputBuffer.length) (hlen' : 512 ≤ inputBuffer'.length)
    (hsame : ∀ k : Nat, k < 512 → inputBuffer[k]? = inputBuffer'[k]?) :
    (ldacBT_encode F (some h) (pcm_short (buffer_memory inputBuffer beyond)) 0 stream 1024
      0).ret = 0 ∧
    (ldacBT_encode F (some h) (pcm_short (buffer_memory inputBuffer beyond)) 0 stream 1024
      0).pcm_used = 512 ∧
    (LdacEncoder.Encode F (some h) inputBuffer beyond stream).1.length
      = (encode_nbytes h.eqmid).toNat ∧
    LdacEncoder.Encode F (some h) inputBuffer beyond stream
      = LdacEncoder.Encode F (some h) inputBuffer' beyond' stream := by
  have hsz : encode_nbytes h.eqmid ≤ 1024 := by
    have := (encode_nbytes_bounds h.eqmid).2
    omega
  have hpcm : ∀ i : Nat, i < 256 →
      pcm_short (buffer_memory inputBuffer beyond) i
        = pcm_short (buffer_memory inputBuffer' beyond') i := by
    intro i hi
    unfold pcm_short
    rw [buffer_memory_congr inputBuffer inputBuffer' beyond beyond' (2 * i) (by omega)
        (by omega) (hsame _ (by omega)),
      buffer_memory_congr inputBuffer inputBuffer' beyond beyond' (2 * i + 1) (by omega)
        (by omega) (hsame _ (by omega))]
  refine ⟨?_, ?_, ?_, ?_⟩
  · rw [ldacBT_encode_enough _ _ _ _ _ _ _ hsz]
  · rw [ldacBT_encode_enough _ _ _ _ _ _ _ hsz]
  · exact Encode_length F h inputBuffer beyond stream
  · dsimp only [LdacEncoder.Encode]
    rw [ldacBT_encode_congr_pcm F h _ _ 0 stream 1024 0 hpcm]

theorem Encode_ignores_length_witness :
    512 ≤ (List.replicate 1024 (0 : Nat)).length ∧
    512 ≤ (List.replicate 512 (0 : Nat)).length ∧
    LdacEncoder.Encode zero_float_ops (some hq_44100) (List.replicate 1024 0) zero_stream
        sevens_stream
      = LdacEncoder.Encode zero_float_ops (some hq_44100) (List.replicate 512 0) zero_stream
        sevens_stream :=
  have h1 : 512 ≤ (List.replicate 1024 (0 : Nat)).length := by
    rw [List.length_replicate]
    decide
  have h2 : 512 ≤ (List.replicate 512 (0 : Nat)).length := by
    rw [List.length_replicate]
  ⟨h1, h2,
    (Encode_ignores_length zero_float_ops hq_44100 (List.replicate 1024 0)
      (List.replicate 512 0) zero_stream zero_stream sevens_stream h1 h2
      (fun k hk => by
        rw [List.getElem?_replicate, List.getElem?_replicate, if_pos hk,
          if_pos (Nat.lt_trans hk (by decide))])).2.2.2⟩

/-! ## Overlap continuity -/

/-- C15. From a non-null session a block `B` is encoded and then two all-zero blocks. The
second all-zero encode reports the same length and writes the same bytes, at every index it
writes, as an encode of an all-zero block on a session with the same quality mode, sampling
frequency and channel mode and an all-zero overlap buffer: `B` no longer has any influence.
When both calls start from the same output buffer the whole buffers agree. -/
theorem encode_overlap_continuity (F : FloatOps) (h h₀ : ldacbt_handle) (B Z : Nat → Int)
    (pcm_used₁ pcm_used₂ pcm_used₃ pcm_used₀ : Int)
    (p_stream₁ p_stream₂ p_stream₃ p_stream₀ : Nat → Nat)
    (stream_sz₁ stream_sz₂ stream_sz₃ stream_sz₀ : Int)
    (frame_num₁ frame_num₂ frame_num₃ frame_num₀ : Int)
    (hZ : ∀ i : Nat, i < 256 → Z i = 0)
    (hsz₁ : encode_nbytes h.eqmid ≤ stream_sz₁) (hsz₂ : encode_nbytes h.eqmid ≤ stream_sz₂)
    (hsz₃ : encode_nbytes h.eqmid ≤ stream_sz₃) (hsz₀ : encode_nbytes h.eqmid ≤ stream_sz₀)
    (heq : h₀.eqmid = h.eqmid) (hsf : h₀.sampling_freq = h.sampling_freq)
    (hcm : h₀.channel_mode = h.channel_mode)
    (hprev : ∀ (c : Fin 2) (i : Fin 128), h₀.prev_samples c i = 0) :
    (ldacBT_encode F
      (ldacBT_encode F
        (ldacBT_encode F (some h) B pcm_used₁ p_stream₁ stream_sz₁ frame_num₁).hLdacBt
        Z pcm_used₂ p_stream₂ stream_sz₂ frame_num₂).hLdacBt
      Z pcm_used₃ p_stream₃ stream_sz₃ frame_num₃).ret = 0 ∧
    (ldacBT_encode F (some h₀) Z pcm_used₀ p_stream₀ stream_sz₀ frame_num₀).ret = 0 ∧
    (ldacBT_encode F
      (ldacBT_encode F
        (ldacBT_encode F (some h) B pcm_used₁ p_stream₁ stream_sz₁ frame_num₁).hLdacBt
        Z pcm_used₂ p_stream₂ stream_sz₂ frame_num₂).hLdacBt
      Z pcm_used₃ p_stream₃ stream_sz₃ frame_num₃).stream_sz
      = (ldacBT_encode F (some h₀) Z pcm_used₀ p_stream₀ stream_sz₀ frame_num₀).stream_sz ∧
    (∀ j : Nat, j ∈ encode_write_indices h.eqmid →
      (ldacBT_encode F
        (ldacBT_encode F
          (ldacBT_encode F (some h) B pcm_used₁ p_stream₁ stream_sz₁ frame_num₁).hLdacBt
          Z pcm_used₂ p_stream₂ stream_sz₂ frame_num₂).hLdacBt
        Z pcm_used₃ p_stream₃ stream_sz₃ frame_num₃).p_stream j
        = (ldacBT_encode F (some h₀) Z pcm_used₀ p_stream₀ stream_sz₀
            frame_num₀).p_stream j) ∧
    (p_stream₃ = p_stream₀ →
      (ldacBT_encode F
        (ldacBT_encode F
          (ldacBT_encode F (some h) B pcm_used₁ p_stream₁ stream_sz₁ frame_num₁).hLdacBt
          Z pcm_used₂ p_stream₂ stream_sz₂ frame_num₂).hLdacBt
        Z pcm_used₃ p_stream₃ stream_sz₃ frame_num₃).p_stream
        = (ldacBT_encode F (some h₀) Z pcm_used₀ p_stream₀ stream_sz₀
            frame_num₀).p_stream) := by
  obtain ⟨h₁, e₁, heq₁, hsf₁, hcm₁, _, _⟩ :=
    ldacBT_encode_enough_handle F h B pcm_used₁ p_stream₁ stream_sz₁ frame_num₁ hsz₁
  obtain ⟨h₂, e₂, heq₂, hsf₂, hcm₂, hprev₂, _⟩ :=
    ldacBT_encode_enough_handle F h₁ Z pcm_used₂ p_stream₂ stream_sz₂ frame_num₂
      (heq₁ ▸ hsz₂)
  rw [e₁, e₂]
  have heq' : h₂.eqmid = h.eqmid := heq₂.trans heq₁
  have hsz₃' : encode_nbytes h₂.eqmid ≤ stream_sz₃ := heq' ▸ hsz₃
  have hsz₀' : encode_nbytes h₀.eqmid ≤ stream_sz₀ := heq ▸ hsz₀
  have hleft :
      (fill_buffers Z h₂.prev_samples).left_ch = (fill_buffers Z h₀.prev_samples).left_ch := by
    apply fill_buffers_left_ch_congr Z Z _ _ _ (fun _ _ => rfl)
    funext i
    have hi := i.isLt
    rw [hprev₂, (fill_buffers_prev_samples Z h₁.prev_samples i).1,
      hZ (2 * i.val) (by omega), hprev 0 i]
    norm_num
  have hbytes : ∀ j : Nat, (j ∈ encode_write_indices h.eqmid ∨ p_stream₃ = p_stream₀) →
      (ldacBT_encode F (some h₂) Z pcm_used₃ p_stream₃ stream_sz₃ frame_num₃).p_stream j
        = (ldacBT_encode F (some h₀) Z pcm_used₀ p_stream₀ stream_sz₀
            frame_num₀).p_stream j := by
    intro j hj
    rw [ldacBT_encode_p_stream F h₂ Z pcm_used₃ p_stream₃ stream_sz₃ frame_num₃ hsz₃' j,
      ldacBT_encode_p_stream F h₀ Z pcm_used₀ p_stream₀ stream_sz₀ frame_num₀ hsz₀' j,
      hleft, heq', heq, hsf₂, hsf₁, hsf, hcm₂, hcm₁, hcm]
    rcases hj with hj | hj
    · rw [mem_encode_write_indices] at hj
      rcases hj with e | e | e | e
      · subst e
        simp
      · subst e
        simp
      · subst e
        simp
      · rw [if_pos e, if_pos e]
    · rw [hj]
  refine ⟨?_, ?_, ?_, ?_, ?_⟩
  · rw [ldacBT_encode_enough F h₂ Z pcm_used₃ p_stream₃ stream_sz₃ frame_num₃ hsz₃']
  · rw [ldacBT_encode_enough F h₀ Z pcm_used₀ p_stream₀ stream_sz₀ frame_num₀ hsz₀']
  · rw [ldacBT_encode_enough F h₂ Z pcm_used₃ p_stream₃ stream_sz₃ frame_num₃ hsz₃',
      ldacBT_encode_enough F h₀ Z pcm_used₀ p_stream₀ stream_sz₀ frame_num₀ hsz₀']
    dsimp only
    rw [heq', heq]
  · intro j hj
    exact hbytes j (Or.inl hj)
  · intro hps
    funext j
    exact hbytes j (Or.inr hps)

theorem encode_overlap_continuity_witness :
    (∀ i : Nat, i < 256 → silent_pcm i = 0) ∧
    encode_nbytes hq_44100.eqmid ≤ 1024 ∧
    (∀ (c : Fin 2) (i : Fin 128), hq_44100.prev_samples c i = 0) ∧
    (ldacBT_encode zero_float_ops
      (ldacBT_encode zero_float_ops
        (ldacBT_encode zero_float_ops (some hq_44100) loud_pcm 0 zero_stream 1024 0).hLdacBt
        silent_pcm 0 zero_stream 1024 0).hLdacBt
      silent_pcm 0 sevens_stream 1024 0).p_stream
      = (ldacBT_encode zero_float_ops (some hq_44100) silent_pcm 0 sevens_stream 1024
          0).p_stream :=
  have hsz : encode_nbytes hq_44100.eqmid ≤ 1024 := by decide
  ⟨fun _ _ => rfl, hsz, fun _ _ => rfl,
    (encode_overlap_continuity zero_float_ops hq_44100 hq_44100 loud_pcm silent_pcm
      0 0 0 0 zero_stream zero_stream sevens_stream sevens_stream 1024 1024 1024 1024 0 0 0 0
      (fun _ _ => rfl) hsz hsz hsz hsz rfl rfl rfl (fun _ _ => rfl)).2.2.2.2 rfl⟩

/-! ## Block counter -/

/-- C16. `frame_count` is 0 after `ldacBT_get_handle` and after `ldacBT_init_handle_encode`;
an `ldacBT_encode` that returns 0 increments it (by exactly 1 while it is below 2^31 - 1), a
failed `ldacBT_encode` and the three queries leave it unchanged; so after a configuration
followed by any sequence of encodes and queries of which `n < 2^31` encodes succeed,
`frame_count` equals `n`. -/
theorem frame_count_counts_successful_encodes (F : FloatOps) (h : ldacbt_handle)
    (mtu eqmid channel_mode fmt sampling_freq : Int) (ops : List Op)
    (hops : ∀ op ∈ ops, op.is_init = false)
    (hn : successful_encodes F
      (ldacBT_init_handle_encode (some h) mtu eqmid channel_mode fmt sampling_freq).2 ops
        < 2147483648) :
    frame_count_of (ldacBT_get_handle true) = 0 ∧
    frame_count_of
      (ldacBT_init_handle_encode (some h) mtu eqmid channel_mode fmt sampling_freq).2 = 0 ∧
    (∀ (hLdacBt : HANDLE_LDAC_BT) (op : Op), op.is_init = false →
      frame_count_of (op.run F hLdacBt)
        = (if op.is_successful_encode F hLdacBt then wrap32 (frame_count_of hLdacBt + 1)
            else frame_count_of hLdacBt)) ∧
    (∀ hLdacBt : HANDLE_LDAC_BT, -2147483648 ≤ frame_count_of hLdacBt →
      frame_count_of hLdacBt < 2147483647 →
      wrap32 (frame_count_of hLdacBt + 1) = frame_count_of hLdacBt + 1) ∧
    frame_count_of
      (run_ops F
        (ldacBT_init_handle_encode (some h) mtu eqmid channel_mode fmt sampling_freq).2 ops)
      = (successful_encodes F
          (ldacBT_init_handle_encode (some h) mtu eqmid channel_mode fmt sampling_freq).2
          ops : Int) := by
  have hzero : frame_count_of
      (ldacBT_init_handle_encode (some h) mtu eqmid channel_mode fmt sampling_freq).2 = 0 := rfl
  refine ⟨rfl, hzero, Op.run_frame_count F, fun g => wrap32_succ _, ?_⟩
  rw [run_ops_frame_count F ops _ hops (by rw [hzero]) (by rw [hzero]; omega), hzero]
  omega

theorem frame_count_counts_successful_encodes_witness :
    frame_count_of
      (run_ops zero_float_ops
        (ldacBT_init_handle_encode (some calloc_handle) 679 LDACBT_EQMID_HQ
          LDACBT_CHANNEL_MODE_STEREO LDACBT_SMPL_FMT_S16 44100).2
        [Op.encode loud_pcm 0 zero_stream 1024 0, Op.get_bitrate,
          Op.encode silent_pcm 0 zero_stream 100 0, Op.get_error_code,
          Op.encode silent_pcm 0 zero_stream 330 0]) = 2 := by
  have hops : ∀ op ∈ [Op.encode loud_pcm 0 zero_stream 1024 0, Op.get_bitrate,
      Op.encode silent_pcm 0 zero_stream 100 0, Op.get_error_code,
      Op.encode silent_pcm 0 zero_stream 330 0], op.is_init = false := by
    intro op hop
    simp only [List.mem_cons, List.mem_singleton, List.not_mem_nil, or_false] at hop
    rcases hop with e | e | e | e | e <;> subst e <;> rfl
  have hcount : successful_encodes zero_float_ops
      (ldacBT_init_handle_encode (some calloc_handle) 679 LDACBT_EQMID_HQ
        LDACBT_CHANNEL_MODE_STEREO LDACBT_SMPL_FMT_S16 44100).2
      [Op.encode loud_pcm 0 zero_stream 1024 0, Op.get_bitrate,
        Op.encode silent_pcm 0 zero_stream 100 0, Op.get_error_code,
        Op.encode silent_pcm 0 zero_stream 330 0] = 2 := by
    decide
  have hmain := (frame_count_counts_successful_encodes zero_float_ops calloc_handle 679
    LDACBT_EQMID_HQ LDACBT_CHANNEL_MODE_STEREO LDACBT_SMPL_FMT_S16 44100 _ hops
    (by rw [hcount]; decide)).2.2.2.2
  rw [hmain, hcount]
  rfl

/-! ## Payload bytes -/

/-- C17, counterexample. Two successful encodes of the same block from the same High-quality
session, one into a buffer of zeros and one into a buffer of sevens, differ at index 3 and at
index 331, both within 3 .. 2 + 330: neither byte is written by the call. -/
theorem encode_leaves_index_3_and_331 :
    (ldacBT_encode zero_float_ops (some hq_44100) loud_pcm 0 zero_stream 1024 0).ret = 0 ∧
    (ldacBT_encode zero_float_ops (some hq_44100) loud_pcm 0 sevens_stream 1024 0).ret = 0 ∧
    (ldacBT_encode zero_float_ops (some hq_44100) loud_pcm 0 zero_stream 1024 0).p_stream 3
      ≠ (ldacBT_encode zero_float_ops (some hq_44100) loud_pcm 0 sevens_stream 1024
          0).p_stream 3 ∧
    (ldacBT_encode zero_float_ops (some hq_44100) loud_pcm 0 zero_stream 1024 0).p_stream 331
      ≠ (ldacBT_encode zero_float_ops (some hq_44100) loud_pcm 0 sevens_stream 1024
          0).p_stream 331 ∧
    (331 : Int) ≤ 2 + payloadBytes QualityMode.High := by
  have hsz : encode_nbytes hq_44100.eqmid ≤ 1024 := by decide
  have h3 : ¬(4 ≤ 3 ∧ ((3 : Nat) : Int) < encode_nbytes hq_44100.eqmid) := by decide
  have h331 : ¬(4 ≤ 331 ∧ ((331 : Nat) : Int) < encode_nbytes hq_44100.eqmid) := by decide
  refine ⟨?_, ?_, ?_, ?_, by decide⟩
  · rw [ldacBT_encode_enough _ _ _ _ _ _ _ hsz]
  · rw [ldacBT_encode_enough _ _ _ _ _ _ _ hsz]
  · rw [ldacBT_encode_p_stream _ _ _ _ _ _ _ hsz 3, ldacBT_encode_p_stream _ _ _ _ _ _ _ hsz 3,
      if_neg h3, if_neg h3]
    decide
  · rw [ldacBT_encode_p_stream _ _ _ _ _ _ _ hsz 331,
      ldacBT_encode_p_stream _ _ _ _ _ _ _ hsz 331, if_neg h331, if_neg h331]
    decide

/-- C17, amended. For every successful `ldacBT_encode` the frame occupies the indices
0 .. nbytes - 1. Every byte at an index 4 .. nbytes - 1 is written by the call with the
value `quantize(mdct_l[i % 128])` of the current call's left coefficients, and two
successful encodes from equal sessions with equal PCM blocks yield equal bytes at the indices
0, 1, 2 and 4 .. nbytes - 1, whatever the two output buffers contained before. -/
theorem encode_payload_determined (F : FloatOps) (h : ldacbt_handle) (p_pcm : Nat → Int)
    (pcm_used pcm_used' : Int) (p_stream p_stream' : Nat → Nat)
    (stream_sz stream_sz' frame_num frame_num' : Int) (j : Nat)
    (hsz : encode_nbytes h.eqmid ≤ stream_sz) (hsz' : encode_nbytes h.eqmid ≤ stream_sz')
    (hj : j ∈ encode_write_indices h.eqmid) :
    (ldacBT_encode F (some h) p_pcm pcm_used p_stream stream_sz frame_num).p_stream j
      = (ldacBT_encode F (some h) p_pcm pcm_used' p_stream' stream_sz' frame_num').p_stream j ∧
    (4 ≤ j →
      (ldacBT_encode F (some h) p_pcm pcm_used p_stream stream_sz frame_num).p_stream j
        = F.quantize (F.process_mdct (fill_buffers p_pcm h.prev_samples).left_ch (j % 128))
            % 256) := by
  rw [ldacBT_encode_p_stream F h p_pcm pcm_used p_stream stream_sz frame_num hsz j,
    ldacBT_encode_p_stream F h p_pcm pcm_used' p_stream' stream_sz' frame_num' hsz' j]
  rw [mem_encode_write_indices] at hj
  rcases hj with e | e | e | e
  · subst e
    simp
  · subst e
    simp
  · subst e
    simp
  · rw [if_pos e, if_pos e]
    exact ⟨rfl, fun _ => rfl⟩

theorem encode_payload_determined_witness :
    encode_nbytes hq_44100.eqmid ≤ 1024 ∧ encode_nbytes hq_44100.eqmid ≤ 330 ∧
    329 ∈ encode_write_indices hq_44100.eqmid ∧
    (ldacBT_encode zero_float_ops (some hq_44100) loud_pcm 0 zero_stream 1024 0).p_stream 329
      = (ldacBT_encode zero_float_ops (some hq_44100) loud_pcm 0 sevens_stream 330
          0).p_stream 329 :=
  have hsz : encode_nbytes hq_44100.eqmid ≤ 1024 := by decide
  have hsz' : encode_nbytes hq_44100.eqmid ≤ 330 := by decide
  have hj : 329 ∈ encode_write_indices hq_44100.eqmid :=
    (mem_encode_write_indices hq_44100.eqmid 329).mpr
      (Or.inr (Or.inr (Or.inr ⟨by decide, by decide⟩)))
  ⟨hsz, hsz', hj,
    (encode_payload_determined zero_float_ops hq_44100 loud_pcm 0 0 zero_stream sevens_stream
      1024 330 0 0 329 hsz hsz' hj).1⟩

/-! ## Range of the quantization -/

/-- C18, the code at the impulse block. The session `hq_44100` has an overlap buffer within
[-1, 1] (all zero), `impulse_pcm` is a block of 16-bit samples (16384 at the first left
sample, zero elsewhere) and the frame index 4 is in the payload loop. There the scaled
coefficient `mdct_l[4] * 100` that line 129 converts to `unsigned char` lies, in exact
arithmetic, between -38 and -37 (about -37.25): truncated toward zero it is -37, which is
not in [0, 255], and which a conversion that wraps stores as 219. -/
theorem encode_scaled_coefficient_impulse_negative :
    (∀ (c : Fin 2) (i : Fin 128),
      -1 ≤ hq_44100.prev_samples c i ∧ hq_44100.prev_samples c i ≤ 1) ∧
    (∀ i : Nat, -32768 ≤ impulse_pcm i ∧ impulse_pcm i ≤ 32767) ∧
    4 ∈ encode_write_indices hq_44100.eqmid ∧
    -38 < encode_scaled_coefficient hq_44100 impulse_pcm 4 ∧
    encode_scaled_coefficient hq_44100 impulse_pcm 4 < -37 ∧
    Int.ceil (encode_scaled_coefficient hq_44100 impulse_pcm 4) = -37 ∧
    ¬(0 ≤ Int.ceil (encode_scaled_coefficient hq_44100 impulse_pcm 4) ∧
      Int.ceil (encode_scaled_coefficient hq_44100 impulse_pcm 4) ≤ 255) ∧
    to_uchar (Int.ceil (encode_scaled_coefficient hq_44100 impulse_pcm 4)) = 219 := by
  have hval : -38 < encode_scaled_coefficient hq_44100 impulse_pcm 4 ∧
      encode_scaled_coefficient hq_44100 impulse_pcm 4 < -37 := by
    have hsum := foldl_add_single
      (fun n => ((((fill_buffers impulse_pcm hq_44100.prev_samples).left_ch n : Rat) : ℝ)
          * kWindow n)
        * Real.cos ((Real.pi / 128) * ((n : ℝ) + 0.5 + ((128 / 2 : Nat) : ℝ))
          * (((4 % 128 : Nat) : ℝ) + 0.5)))
      128 (List.range 256) (List.nodup_range 256)
      (by
        intro n hn hne
        dsimp only
        rw [fill_buffers_impulse_left_ch n (List.mem_range.mp hn), if_neg hne]
        simp)
      0
    have hmem : 128 ∈ List.range 256 := List.mem_range.mpr (by decide)
    rw [if_pos hmem, fill_buffers_impulse_left_ch 128 (by decide), if_pos rfl] at hsum
    unfold encode_scaled_coefficient process_mdct
    rw [hsum]
    obtain ⟨hk1, hk2⟩ := kWindow_128_bounds
    obtain ⟨hc1, hc2⟩ := cos_term_128_4_bounds
    have h4 : ((4 % 128 : Nat) : ℝ) = ((4 : Nat) : ℝ) := by norm_num
    rw [h4]
    push_cast
    constructor <;> nlinarith
  have hceil : Int.ceil (encode_scaled_coefficient hq_44100 impulse_pcm 4) = -37 := by
    rw [Int.ceil_eq_iff]
    push_cast
    constructor <;> linarith [hval.1, hval.2]
  refine ⟨?_, ?_, ?_, hval.1, hval.2, hceil, ?_, ?_⟩
  · intro c i
    show (-1 : Rat) ≤ 0 ∧ (0 : Rat) ≤ 1
    constructor <;> norm_num
  · intro i
    unfold impulse_pcm
    split_ifs <;> constructor <;> norm_num
  · exact (mem_encode_write_indices hq_44100.eqmid 4).mpr
      (Or.inr (Or.inr (Or.inr ⟨le_refl 4, by decide⟩)))
  · rw [hceil]
    decide
  · rw [hceil]
    decide

/-! ## Output-buffer write bounds -/

/-- C19. For every stored quality mode and every declared capacity: if `ldacBT_encode`
returns 0 then `nbytes` is at most the capacity, every index it assigns (0, 1, 2 and
4 .. nbytes - 1) is below `nbytes`, and every byte at another index, in particular at or
beyond the capacity, is as before the call; if it returns an error the whole output buffer is
as before the call. -/
theorem encode_write_bounds (F : FloatOps) (hLdacBt : HANDLE_LDAC_BT) (p_pcm : Nat → Int)
    (pcm_used : Int) (p_stream : Nat → Nat) (stream_sz frame_num : Int) :
    ((ldacBT_encode F hLdacBt p_pcm pcm_used p_stream stream_sz frame_num).ret = 0 →
      ∃ h : ldacbt_handle, hLdacBt = some h ∧
        encode_nbytes h.eqmid ≤ stream_sz ∧
        (∀ j : Nat, j ∈ encode_write_indices h.eqmid →
          (j : Int) < encode_nbytes h.eqmid ∧ (j : Int) < stream_sz) ∧
        (∀ j : Nat, j ∉ encode_write_indices h.eqmid →
          (ldacBT_encode F hLdacBt p_pcm pcm_used p_stream stream_sz frame_num).p_stream j
            = p_stream j) ∧
        (∀ j : Nat, stream_sz ≤ (j : Int) →
          (ldacBT_encode F hLdacBt p_pcm pcm_used p_stream stream_sz frame_num).p_stream j
            = p_stream j)) ∧
    ((ldacBT_encode F hLdacBt p_pcm pcm_used p_stream stream_sz frame_num).ret ≠ 0 →
      (ldacBT_encode F hLdacBt p_pcm pcm_used p_stream stream_sz frame_num).p_stream
        = p_stream) := by
  cases hLdacBt with
  | none =>
    constructor
    · intro hret
      exact absurd hret (show LDACBT_ERR_FATAL ≠ 0 by decide)
    · intro _
      rfl
  | some h =>
    by_cases hsz : stream_sz < encode_nbytes h.eqmid
    · rw [ldacBT_encode_small F h p_pcm pcm_used p_stream stream_sz frame_num hsz]
      constructor
      · intro hret
        exact absurd hret (show LDACBT_ERR_ILL_PARAM ≠ 0 by decide)
      · intro _
        rfl
    · have hge : encode_nbytes h.eqmid ≤ stream_sz := not_lt.mp hsz
      have hlo := (encode_nbytes_bounds h.eqmid).1
      have hin : ∀ j : Nat, j ∈ encode_write_indices h.eqmid →
          (j : Int) < encode_nbytes h.eqmid := by
        intro j hj
        rw [mem_encode_write_indices] at hj
        rcases hj with e | e | e | e
        · subst e
          omega
        · subst e
          omega
        · subst e
          omega
        · exact e.2
      have hout : ∀ j : Nat, j ∉ encode_write_indices h.eqmid →
          (ldacBT_encode F (some h) p_pcm pcm_used p_stream stream_sz frame_num).p_stream j
            = p_stream j := by
        intro j hj
        rw [mem_encode_write_indices] at hj
        rw [ldacBT_encode_p_stream F h p_pcm pcm_used p_stream stream_sz frame_num hge j,
          if_neg (fun e => hj (Or.inr (Or.inr (Or.inr e)))),
          if_neg (fun e => hj (Or.inl e)),
          if_neg (fun e => hj (Or.inr (Or.inl e))),
          if_neg (fun e => hj (Or.inr (Or.inr (Or.inl e))))]
      constructor
      · intro _
        refine ⟨h, rfl, hge, fun j hj => ⟨hin j hj, ?_⟩, hout, ?_⟩
        · have := hin j hj
          omega
        · intro j hj
          apply hout
          intro hmem
          have := hin j hmem
          omega
      · intro hret
        rw [ldacBT_encode_enough F h p_pcm pcm_used p_stream stream_sz frame_num hge] at hret
        exact absurd rfl hret

theorem encode_write_bounds_witness :
    (ldacBT_encode zero_float_ops (some hq_44100) loud_pcm 0 sevens_stream 100 0).ret ≠ 0 ∧
    (ldacBT_encode zero_float_ops (some hq_44100) loud_pcm 0 sevens_stream 100 0).p_stream
      = sevens_stream :=
  have hret :
      (ldacBT_encode zero_float_ops (some hq_44100) loud_pcm 0 sevens_stream 100 0).ret ≠ 0 := by
    rw [ldacBT_encode_small _ _ _ _ _ _ _ (by decide)]
    decide
  ⟨hret, (encode_write_bounds zero_float_ops (some hq_44100) loud_pcm 0 sevens_stream 100
    0).2 hret⟩

/-! ## Right channel -/

/-- C20. The return value, the reported length and the bytes of the output buffer after
`ldacBT_encode` do not depend on the right channel: two calls with the same output buffer and
capacity, on sessions that agree on the quality mode, the sampling frequency, the channel
mode and `prev_samples[0]`, with PCM blocks that agree on every left sample `pcm[2*i]`, leave
identical output, whatever `prev_samples[1]` and the right samples `pcm[2*i+1]` are. -/
theorem encode_right_channel_independent (F : FloatOps) (h h' : ldacbt_handle)
    (p_pcm p_pcm' : Nat → Int) (pcm_used pcm_used' : Int) (p_stream : Nat → Nat)
    (stream_sz frame_num frame_num' : Int)
    (heq : h.eqmid = h'.eqmid) (hsf : h.sampling_freq = h'.sampling_freq)
    (hcm : h.channel_mode = h'.channel_mode) (hprev : h.prev_samples 0 = h'.prev_samples 0)
    (hpcm : ∀ i : Nat, i < 128 → p_pcm (2 * i) = p_pcm' (2 * i)) :
    (ldacBT_encode F (some h) p_pcm pcm_used p_stream stream_sz frame_num).ret
      = (ldacBT_encode F (some h') p_pcm' pcm_used' p_stream stream_sz frame_num').ret ∧
    (ldacBT_encode F (some h) p_pcm pcm_used p_stream stream_sz frame_num).p_stream
      = (ldacBT_encode F (some h') p_pcm' pcm_used' p_stream stream_sz frame_num').p_stream ∧
    (ldacBT_encode F (some h) p_pcm pcm_used p_stream stream_sz frame_num).stream_sz
      = (ldacBT_encode F (some h') p_pcm' pcm_used' p_stream stream_sz
          frame_num').stream_sz :=
  ldacBT_encode_frame_congr F h h' p_pcm p_pcm' pcm_used pcm_used' p_stream stream_sz
    frame_num frame_num' heq hsf hcm hprev hpcm

theorem encode_right_channel_independent_witness :
    hq_44100.prev_samples 0 = hq_44100_right_tail.prev_samples 0 ∧
    (∀ i : Nat, i < 128 → silent_pcm (2 * i) = right_only_pcm (2 * i)) ∧
    right_only_pcm 1 ≠ silent_pcm 1 ∧
    (ldacBT_encode zero_float_ops (some hq_44100) silent_pcm 0 sevens_stream 1024 0).p_stream
      = (ldacBT_encode zero_float_ops (some hq_44100_right_tail) right_only_pcm 0
          sevens_stream 1024 0).p_stream :=
  have hprev : hq_44100.prev_samples 0 = hq_44100_right_tail.prev_samples 0 := by
    funext i
    simp [hq_44100, hq_44100_right_tail, calloc_handle]
  have hpcm : ∀ i : Nat, i < 128 → silent_pcm (2 * i) = right_only_pcm (2 * i) := by
    intro i _
    simp [silent_pcm, right_only_pcm]
  ⟨hprev, hpcm, by decide,
    (encode_right_channel_independent zero_float_ops hq_44100 hq_44100_right_tail silent_pcm
      right_only_pcm 0 0 sevens_stream 1024 0 0 rfl rfl rfl hprev hpcm).2.1⟩

end LdacBT
